import Mathlib

/-!
Verification of the cpio archive module (src/cpio.py).

Bytes are modelled as natural numbers in [0, 255]; Python byte strings are
lists of such numbers.  The backing file object is a pair of the full byte
list and a cursor, with read/seek semantics matching binary file objects.
Exceptions are modelled by an error type threaded through Except.
-/

namespace Cpio

abbrev Byte := Nat

/-- Byte list of an ASCII string literal. -/
def strBytes (s : String) : List Byte := s.toList.map Char.toNat

/-- NEW_MAGIC = "070701" (new ASCII format). -/
def NEW_MAGIC : List Byte := strBytes "070701"

/-- CRC_MAGIC = "070702" (new CRC format). -/
def CRC_MAGIC : List Byte := strBytes "070702"

/-- OLD_MAGIC = "070707" (old ASCII format). -/
def OLD_MAGIC : List Byte := strBytes "070707"

/-- BIN_MAGIC = 070707 octal, an integer (old binary format). -/
def BIN_MAGIC : Nat := 28679

/-- Name of the trailer sentinel record, "TRAILER!!!". -/
def trailerName : List Byte := strBytes "TRAILER!!!"

/-- The single dot name ".". -/
def dotName : List Byte := strBytes "."

/-- The double dot name "..". -/
def dotdotName : List Byte := strBytes ".."

/-- Python exceptions raised by the module or by the builtins it calls.
HeaderError and ChecksumError are the exception classes of cpio.py itself;
structError models struct.error, valueError models ValueError from int(),
attributeError models AttributeError, unsupportedOperation models
io.UnsupportedOperation, typeError and ioError model TypeError and IOError. -/
inductive PyErr where
  | headerError
  | checksumError (name : List Byte)
  | structError
  | valueError
  | attributeError
  | unsupportedOperation
  | typeError
  | ioError
deriving DecidableEq, Repr

/-- A binary mode file object: the full byte content plus the read cursor. -/
structure Stream where
  data : List Byte
  pos : Nat
deriving DecidableEq, Repr

/-- fileobj.read(n): returns up to n bytes from the cursor and advances it. -/
def readS (n : Nat) (s : Stream) : List Byte × Stream :=
  let chunk := (s.data.drop s.pos).take n
  (chunk, { s with pos := s.pos + chunk.length })

/-- checksum32 (src/cpio.py line 112): 32-bit unsigned sum of the bytes. -/
def checksum32 (bs : List Byte) : Nat := bs.sum &&& 0xFFFFFFFF

/-- stat.S_ISREG: file-type bits equal the regular-file type. -/
def S_ISREG (m : Nat) : Bool := (m &&& 61440) == 32768

/-- stat.S_ISDIR: file-type bits equal the directory type. -/
def S_ISDIR (m : Nat) : Bool := (m &&& 61440) == 16384

/-- stat.S_ISLNK: file-type bits equal the symbolic-link type. -/
def S_ISLNK (m : Nat) : Bool := (m &&& 61440) == 40960

/-- os.major, classical 8-bit device split (external collaborator). -/
def os_major (d : Nat) : Nat := d >>> 8

/-- os.minor, classical 8-bit device split (external collaborator). -/
def os_minor (d : Nat) : Nat := d &&& 255

/-- os.makedev, classical 8-bit device split (external collaborator). -/
def os_makedev (ma mi : Nat) : Nat := (ma <<< 8) ||| mi

/-- Python slice l[:i] where i may be negative (counting from the end). -/
def pyTakeTo (i : Int) (l : List Byte) : List Byte :=
  if 0 ≤ i then l.take i.toNat else l.take (l.length - (-i).toNat)

/-- Value of an ASCII hexadecimal digit, as accepted by int(s, 16). -/
def hexDigitVal (c : Byte) : Option Nat :=
  if 48 ≤ c ∧ c ≤ 57 then some (c - 48)
  else if 97 ≤ c ∧ c ≤ 102 then some (c - 87)
  else if 65 ≤ c ∧ c ≤ 70 then some (c - 55)
  else none

/-- Value of an ASCII octal digit, as accepted by int(s, 8). -/
def octDigitVal (c : Byte) : Option Nat :=
  if 48 ≤ c ∧ c ≤ 55 then some (c - 48) else none

/-- int(s, base) on a run of digit characters; none models ValueError. -/
def parseBase (base : Nat) (digVal : Byte → Option Nat) (s : List Byte) : Option Nat :=
  if s = [] then none else
  s.foldl (fun acc c =>
    match acc, digVal c with
    | some a, some d => some (a * base + d)
    | _, _ => none) (some 0)

/-- int(s, 16). -/
def parseHex (s : List Byte) : Option Nat := parseBase 16 hexDigitVal s

/-- int(s, 8). -/
def parseOct (s : List Byte) : Option Nat := parseBase 8 octDigitVal s

/-- struct.unpack of one little-endian 16-bit integer (guarded by length 2). -/
def unpack16LE (b : List Byte) : Nat :=
  match b with
  | [x, y] => x + 256 * y
  | _ => 0

/-- struct.unpack of one big-endian 16-bit integer (guarded by length 2). -/
def unpack16BE (b : List Byte) : Nat :=
  match b with
  | [x, y] => 256 * x + y
  | _ => 0

/-- ASCII code of a lowercase hexadecimal digit. -/
def hexChar (d : Nat) : Byte := if d < 10 then 48 + d else 87 + d

/-- Digits of n in base 16, most significant first (Python format x). -/
def hexStr (n : Nat) : List Byte :=
  if _h : n < 16 then [hexChar n]
  else hexStr (n / 16) ++ [hexChar (n % 16)]
termination_by n
decreasing_by
  exact Nat.div_lt_self (by omega) (by omega)

/-- Digits of n in base 8, most significant first (Python format o). -/
def octStr (n : Nat) : List Byte :=
  if _h : n < 8 then [48 + n]
  else octStr (n / 8) ++ [48 + n % 8]
termination_by n
decreasing_by
  exact Nat.div_lt_self (by omega) (by omega)

/-- Left padding with ASCII zeros to width w (format 0>w). -/
def pad0 (w : Nat) (s : List Byte) : List Byte := List.replicate (w - s.length) 48 ++ s

/-- Python format 0>8x. -/
def hex8 (n : Nat) : List Byte := pad0 8 (hexStr n)

/-- Python format 0>6o. -/
def oct6 (n : Nat) : List Byte := pad0 6 (octStr n)

/-- Python format 0>11o. -/
def oct11 (n : Nat) : List Byte := pad0 11 (octStr n)

/-- struct.pack of one 16-bit integer in native (little-endian) order. -/
def packH (v : Nat) : List Byte := [v % 256, v / 256]

/-- CpioEntry: the attributes of one archive member (src/cpio.py line 143).
Defaults are those set by CpioEntry.__init__. -/
structure CpioEntry where
  dev : Nat := 0
  ino : Nat := 0
  mode : Nat := 0
  uid : Nat := 0
  gid : Nat := 0
  nlink : Nat := 0
  mtime : Nat := 0
  rdev : Nat := 0
  size : Nat := 0
  check : Option Nat := none
  target : Option (List Byte) := none
  name : List Byte := trailerName
  filepos : Option Nat := none
  position : Int := 0
deriving DecidableEq, Repr

/-- The header fields shared by the three decode branches of
CpioEntry.from_fileobj, before the name and data are read. -/
structure RawFields where
  dev : Nat
  ino : Nat
  mode : Nat
  uid : Nat
  gid : Nat
  nlink : Nat
  mtime : Nat
  rdev : Nat
  size : Nat
  check : Option Nat
deriving DecidableEq, Repr

/-- Lines 265 to 276 of src/cpio.py: read the member name (dropping the
trailing NUL and padding), then, for a regular file, record the data offset
and read the data through (verifying the checksum when the magic was the CRC
one), or, for a symbolic link, read the target; the data region of any other
member type is not read at all. -/
def finishEntry (isCrc : Bool) (f : RawFields) (namesize hpad dpad : Nat)
    (s : Stream) : Except PyErr (CpioEntry × Stream) :=
  let r1 := readS (namesize + hpad) s
  let nm := pyTakeTo ((namesize : Int) - 1) r1.1
  if S_ISREG f.mode then
    let filepos := r1.2.pos
    let r2 := readS (f.size + dpad) r1.2
    let data := r2.1.take f.size
    if isCrc ∧ f.check ≠ some (checksum32 data) then
      .error (.checksumError nm)
    else
      .ok ({ dev := f.dev, ino := f.ino, mode := f.mode, uid := f.uid,
             gid := f.gid, nlink := f.nlink, mtime := f.mtime, rdev := f.rdev,
             size := f.size, check := f.check, target := none, name := nm,
             filepos := some filepos, position := 0 }, r2.2)
  else if S_ISLNK f.mode then
    let r2 := readS (f.size + dpad) r1.2
    .ok ({ dev := f.dev, ino := f.ino, mode := f.mode, uid := f.uid,
           gid := f.gid, nlink := f.nlink, mtime := f.mtime, rdev := f.rdev,
           size := f.size, check := f.check, target := some (r2.1.take f.size),
           name := nm, filepos := none, position := 0 }, r2.2)
  else
    .ok ({ dev := f.dev, ino := f.ino, mode := f.mode, uid := f.uid,
           gid := f.gid, nlink := f.nlink, mtime := f.mtime, rdev := f.rdev,
           size := f.size, check := f.check, target := none, name := nm,
           filepos := none, position := 0 }, r1.2)

/-- Lines 218 to 233 of src/cpio.py: parse the 13 hexadecimal fields of a
new ASCII or new CRC header b (110 bytes, magic included), compute the
padding, then read name and data. -/
def decodeNewRest (isCrc : Bool) (b : List Byte) (s : Stream) :
    Except PyErr (CpioEntry × Stream) :=
  match parseHex ((b.drop 6).take 8), parseHex ((b.drop 14).take 8),
        parseHex ((b.drop 22).take 8), parseHex ((b.drop 30).take 8),
        parseHex ((b.drop 38).take 8), parseHex ((b.drop 46).take 8),
        parseHex ((b.drop 54).take 8), parseHex ((b.drop 62).take 8),
        parseHex ((b.drop 70).take 8), parseHex ((b.drop 78).take 8),
        parseHex ((b.drop 86).take 8), parseHex ((b.drop 94).take 8),
        parseHex ((b.drop 102).take 8) with
  | some ino, some mode, some uid, some gid, some nlink, some mtime,
    some size, some devmaj, some devmin, some rdevmaj, some rdevmin,
    some namesize, some check =>
      let hpad := (4 - (110 + namesize) % 4) % 4
      let dpad := (4 - size % 4) % 4
      finishEntry isCrc
        { dev := os_makedev devmaj devmin, ino := ino, mode := mode,
          uid := uid, gid := gid, nlink := nlink, mtime := mtime,
          rdev := os_makedev rdevmaj rdevmin, size := size,
          check := some check } namesize hpad dpad s
  | _, _, _, _, _, _, _, _, _, _, _, _, _ => .error .valueError

/-- Lines 234 to 247 of src/cpio.py: parse the octal fields of an old ASCII
header b (76 bytes, magic included); no padding in this format. -/
def decodeOldRest (b : List Byte) (s : Stream) :
    Except PyErr (CpioEntry × Stream) :=
  match parseOct ((b.drop 6).take 6), parseOct ((b.drop 12).take 6),
        parseOct ((b.drop 18).take 6), parseOct ((b.drop 24).take 6),
        parseOct ((b.drop 30).take 6), parseOct ((b.drop 36).take 6),
        parseOct ((b.drop 42).take 6), parseOct ((b.drop 48).take 11),
        parseOct ((b.drop 59).take 6), parseOct ((b.drop 65).take 11) with
  | some dev, some ino, some mode, some uid, some gid, some nlink,
    some rdev, some mtime, some namesize, some size =>
      finishEntry false
        { dev := dev, ino := ino, mode := mode, uid := uid, gid := gid,
          nlink := nlink, mtime := mtime, rdev := rdev, size := size,
          check := none } namesize 0 0 s
  | _, _, _, _, _, _, _, _, _, _ => .error .valueError

/-- Lines 248 to 263 of src/cpio.py: the 13 16-bit words of an old binary
header b (26 bytes, magic included) in the detected byte order; mtime and
size are stored as high and low halves. -/
def decodeBinRest (big : Bool) (b : List Byte) (s : Stream) :
    Except PyErr (CpioEntry × Stream) :=
  let w := fun i => if big then unpack16BE ((b.drop (2 * i)).take 2)
                    else unpack16LE ((b.drop (2 * i)).take 2)
  let namesize := w 10
  let size := (w 11) * 65536 + w 12
  let hpad := (2 - (26 + namesize) % 2) % 2
  let dpad := (2 - size % 2) % 2
  finishEntry false
    { dev := w 1, ino := w 2, mode := w 3, uid := w 4, gid := w 5,
      nlink := w 6, mtime := (w 8) * 65536 + w 9, rdev := w 7, size := size,
      check := none } namesize hpad dpad s

/-- CpioEntry.from_fileobj (src/cpio.py lines 202 to 276): read 6 bytes of
magic, dispatch on it (detecting byte order for the binary format through
both unpack orders), read the rest of the fixed header, then the name and
the data.  An unknown magic raises HeaderError; a short header raises
struct.error; unparsable numeric fields raise ValueError. -/
def from_fileobj (s : Stream) : Except PyErr (CpioEntry × Stream) :=
  let r0 := readS 6 s
  let buf := r0.1
  if buf = NEW_MAGIC ∨ buf = CRC_MAGIC then
    let r1 := readS 104 r0.2
    if (buf ++ r1.1).length ≠ 110 then .error .structError
    else decodeNewRest (buf = CRC_MAGIC) (buf ++ r1.1) r1.2
  else if buf = OLD_MAGIC then
    let r1 := readS 70 r0.2
    if (buf ++ r1.1).length ≠ 76 then .error .structError
    else decodeOldRest (buf ++ r1.1) r1.2
  else if (buf.take 2).length ≠ 2 then .error .structError
  else if unpack16LE (buf.take 2) = BIN_MAGIC then
    let r1 := readS 20 r0.2
    if (buf ++ r1.1).length ≠ 26 then .error .structError
    else decodeBinRest false (buf ++ r1.1) r1.2
  else if unpack16BE (buf.take 2) = BIN_MAGIC then
    let r1 := readS 20 r0.2
    if (buf ++ r1.1).length ≠ 26 then .error .structError
    else decodeBinRest true (buf ++ r1.1) r1.2
  else .error .headerError


/-- The four supported header formats. -/
inductive Format where
  | newAscii
  | newCrc
  | oldAscii
  | oldBinary
deriving DecidableEq, Repr

/-- Magic string written for the two new formats. -/
def magicNew : Format → List Byte
  | .newAscii => NEW_MAGIC
  | .newCrc => CRC_MAGIC
  | _ => []

/-- Header plus name padding of the new formats, as computed on line 281:
(4 - (111 + len(name)) mod 4) mod 4. -/
def hpadNew (nameLen : Nat) : Nat := (4 - (111 + nameLen) % 4) % 4

/-- Data padding of the new formats, line 282: (4 - size mod 4) mod 4. -/
def dpadNew (size : Nat) : Nat := (4 - size % 4) % 4

/-- The header, name, NUL terminator and header padding emitted by
CpioEntry.to_fileobj for the new ASCII and new CRC formats (lines 284-301),
given the value c of the check attribute. -/
def newHeaderName (magic : List Byte) (e : CpioEntry) (c : Nat) : List Byte :=
  magic ++ hex8 e.ino ++ hex8 e.mode ++ hex8 e.uid ++ hex8 e.gid ++
  hex8 e.nlink ++ hex8 e.mtime ++ hex8 e.size ++ hex8 (os_major e.dev) ++
  hex8 (os_minor e.dev) ++ hex8 (os_major e.rdev) ++ hex8 (os_minor e.rdev) ++
  hex8 (e.name.length + 1) ++ hex8 c ++ e.name ++ [0] ++
  List.replicate (hpadNew e.name.length) 0

/-- The data region emitted for the new formats: nothing when data is empty
(line 343: if data), else the data followed by its padding. -/
def newDataRegion (e : CpioEntry) (d : List Byte) : List Byte :=
  if d = [] then [] else d ++ List.replicate (dpadNew e.size) 0

/-- One full record in a new format: header and name region, then data. -/
def newRecordBytes (magic : List Byte) (e : CpioEntry) (c : Nat)
    (d : List Byte) : List Byte :=
  newHeaderName magic e c ++ newDataRegion e d

/-- Header plus name emitted for the old ASCII format (lines 302-318);
this format has no padding at all. -/
def oldHeaderName (e : CpioEntry) : List Byte :=
  OLD_MAGIC ++ oct6 e.dev ++ oct6 e.ino ++ oct6 e.mode ++ oct6 e.uid ++
  oct6 e.gid ++ oct6 e.nlink ++ oct6 e.rdev ++ oct11 e.mtime ++
  oct6 (e.name.length + 1) ++ oct11 e.size ++ e.name ++ [0]

/-- The data region emitted for the old ASCII format: the raw data, with a
zero-length pad (dpad = 0 on line 303). -/
def oldDataRegion (d : List Byte) : List Byte :=
  if d = [] then [] else d ++ List.replicate 0 0

/-- Header plus name padding of the old binary format, line 320. -/
def binHpad (nameLen : Nat) : Nat := (2 - (27 + nameLen) % 2) % 2

/-- Data padding of the old binary format, line 321. -/
def binDpad (size : Nat) : Nat := (2 - size % 2) % 2

/-- Header plus name emitted for the old binary format (lines 319-341):
13 packed 16-bit words, the name, a NUL and the header padding. -/
def binHeaderName (e : CpioEntry) : List Byte :=
  packH BIN_MAGIC ++ packH e.dev ++ packH e.ino ++ packH e.mode ++
  packH e.uid ++ packH e.gid ++ packH e.nlink ++ packH e.rdev ++
  packH (e.mtime / 65536) ++ packH (e.mtime % 65536) ++
  packH (e.name.length + 1) ++ packH (e.size / 65536) ++
  packH (e.size % 65536) ++ e.name ++ [0] ++
  List.replicate (binHpad e.name.length) 0

/-- The data region emitted for the old binary format. -/
def binDataRegion (e : CpioEntry) (d : List Byte) : List Byte :=
  if d = [] then [] else d ++ List.replicate (binDpad e.size) 0

/-- CpioEntry.to_fileobj (src/cpio.py lines 278-345).  Returns the bytes
written to the file object and the updated entry (filepos is set to the
position of the data, line 344, when data is written).  For the new formats
a check attribute of None makes the hexadecimal formatting of None raise
(modelled as valueError); for the old binary format struct.pack raises
struct.error when a field does not fit in 16 bits.  tell is the stream
position at which the record starts. -/
def to_fileobj (e : CpioEntry) (fmt : Format) (data : List Byte) (tell : Nat) :
    Except PyErr (List Byte × CpioEntry) :=
  match fmt with
  | .newAscii | .newCrc =>
    match e.check with
    | none => .error .valueError
    | some c =>
      let hdr := newHeaderName (magicNew fmt) e c
      if data ≠ [] then
        .ok (hdr ++ newDataRegion e data,
             { e with filepos := some (tell + hdr.length) })
      else .ok (hdr, e)
  | .oldAscii =>
      let hdr := oldHeaderName e
      if data ≠ [] then
        .ok (hdr ++ oldDataRegion data,
             { e with filepos := some (tell + hdr.length) })
      else .ok (hdr, e)
  | .oldBinary =>
      if e.dev > 65535 ∨ e.ino > 65535 ∨ e.mode > 65535 ∨ e.uid > 65535 ∨
         e.gid > 65535 ∨ e.nlink > 65535 ∨ e.rdev > 65535 ∨
         e.mtime / 65536 > 65535 ∨ e.name.length + 1 > 65535 ∨
         e.size / 65536 > 65535 then .error .structError
      else
        let hdr := binHeaderName e
        if data ≠ [] then
          .ok (hdr ++ binDataRegion e data,
               { e with filepos := some (tell + hdr.length) })
        else .ok (hdr, e)

theorem readS_snd_data (n : Nat) (s : Stream) : (readS n s).2.data = s.data := rfl

theorem readS_snd_pos_ge (n : Nat) (s : Stream) : s.pos ≤ (readS n s).2.pos :=
  Nat.le_add_right _ _
/-- A successful finishEntry leaves the data intact and moves the cursor
forward. -/
theorem finishEntry_ok {isCrc f ns hp dp s e s2}
    (h : finishEntry isCrc f ns hp dp s = .ok (e, s2)) :
    s2.data = s.data ∧ s.pos ≤ s2.pos := by
  simp only [finishEntry, readS] at h
  split at h
  · split at h
    · exact absurd h (by simp)
    · simp only [Except.ok.injEq, Prod.mk.injEq] at h
      obtain ⟨-, rfl⟩ := h
      exact ⟨rfl, by simp only [readS]; omega⟩
  · split at h
    · simp only [Except.ok.injEq, Prod.mk.injEq] at h
      obtain ⟨-, rfl⟩ := h
      exact ⟨rfl, by simp only [readS]; omega⟩
    · simp only [Except.ok.injEq, Prod.mk.injEq] at h
      obtain ⟨-, rfl⟩ := h
      exact ⟨rfl, by simp only [readS]; omega⟩

theorem decodeNewRest_ok {isCrc b s e s2}
    (h : decodeNewRest isCrc b s = .ok (e, s2)) :
    s2.data = s.data ∧ s.pos ≤ s2.pos := by
  unfold decodeNewRest at h
  split at h
  · exact finishEntry_ok h
  · exact absurd h (by simp)

theorem decodeOldRest_ok {b s e s2}
    (h : decodeOldRest b s = .ok (e, s2)) :
    s2.data = s.data ∧ s.pos ≤ s2.pos := by
  unfold decodeOldRest at h
  split at h
  · exact finishEntry_ok h
  · exact absurd h (by simp)

theorem decodeBinRest_ok {big b s e s2}
    (h : decodeBinRest big b s = .ok (e, s2)) :
    s2.data = s.data ∧ s.pos ≤ s2.pos := finishEntry_ok h

theorem from_fileobj_ok {s : Stream} {e : CpioEntry} {s2 : Stream}
    (h : from_fileobj s = .ok (e, s2)) :
    s2.data = s.data ∧ s.pos < s2.pos ∧ s.pos < s.data.length := by
  unfold from_fileobj at h
  simp only [readS] at h
  split at h
  case isTrue hm =>
    split at h
    · exact absurd h (by simp)
    · have hd := decodeNewRest_ok h
      have hl : ((s.data.drop s.pos).take 6).length = 6 := by
        rcases hm with hm | hm <;> rw [hm] <;> decide
      simp only [List.length_take, List.length_drop] at hl
      simp only [readS] at hd
      refine ⟨hd.1, ?_, by omega⟩
      have h2 := hd.2
      simp only [List.length_take, List.length_drop] at h2 ⊢
      omega
  case isFalse =>
    split at h
    case isTrue hm =>
      split at h
      · exact absurd h (by simp)
      · have hd := decodeOldRest_ok h
        have hl : ((s.data.drop s.pos).take 6).length = 6 := by
          rw [hm]; decide
        simp only [List.length_take, List.length_drop] at hl
        simp only [readS] at hd
        refine ⟨hd.1, ?_, by omega⟩
        have h2 := hd.2
        simp only [List.length_take, List.length_drop] at h2 ⊢
        omega
    case isFalse =>
      split at h
      · exact absurd h (by simp)
      case isFalse hl2 =>
        have hl : ((s.data.drop s.pos).take 2).length = 2 := by
          revert hl2
          simp
        simp only [List.length_take, List.length_drop, List.take_take] at hl ⊢
        split at h
        · split at h
          · exact absurd h (by simp)
          · have hd := decodeBinRest_ok h
            simp only [readS] at hd
            refine ⟨hd.1, ?_, by omega⟩
            have h2 := hd.2
            simp only [List.length_take, List.length_drop] at h2 ⊢
            omega
        · split at h
          · split at h
            · exact absurd h (by simp)
            · have hd := decodeBinRest_ok h
              simp only [readS] at hd
              refine ⟨hd.1, ?_, by omega⟩
              have h2 := hd.2
              simp only [List.length_take, List.length_drop] at h2 ⊢
              omega
          · exact absurd h (by simp)


/-- The scan loop of CpioFile.__init__ (src/cpio.py lines 443-452): read
members until one is named TRAILER!!! (which is not emitted), skipping
members named "." only. -/
def scanLoop (s : Stream) (acc : List CpioEntry) : Except PyErr (List CpioEntry) :=
  match hfo : from_fileobj s with
  | .error e => .error e
  | .ok (ent, s2) =>
    if ent.name = trailerName then .ok acc
    else scanLoop s2 (acc ++ if ent.name = dotName then [] else [ent])
termination_by s.data.length - s.pos
decreasing_by
  have hm := from_fileobj_ok hfo
  rw [hm.1]
  omega

/-- islink of CpioFile._fix_hardlinks (line 473): more than one link and
not a directory. -/
def islink (e : CpioEntry) : Bool := decide (e.nlink > 1) && ! S_ISDIR e.mode

/-- hasdata of CpioFile._fix_hardlinks (line 474): a hardlink member that
carries the data. -/
def hasdata (e : CpioEntry) : Bool := islink e && decide (e.size > 0)

/-- The mutation applied to a matching link (lines 479-481). -/
def rewriteFrom (inode link : CpioEntry) : CpioEntry :=
  { link with filepos := inode.filepos, size := inode.size, nlink := 1 }

/-- The body of the inner loop of _fix_hardlinks: members that do not carry
data (note: not only placeholders) sharing the device and inode pair with
the outer member are rewritten. -/
def linkStep (inode link : CpioEntry) : CpioEntry :=
  if ¬ hasdata link ∧ link.ino = inode.ino ∧ link.dev = inode.dev then
    rewriteFrom inode link
  else link

/-- CpioFile._fix_hardlinks (src/cpio.py lines 471-481).  The outer list of
data-carrying members is materialized once from the original list; since no
data-carrying member is ever mutated by the loop body (the inner list holds
only members for which hasdata is false, and a rewritten member gets
nlink = 1 so hasdata stays false), reading the outer members from the
original list is faithful to the reference semantics of the Python lists. -/
def fix_hardlinks (ms : List CpioEntry) : List CpioEntry :=
  (ms.filter hasdata).foldl (fun acc inode => acc.map (linkStep inode)) ms

/-- Opening an archive for reading (CpioFile.__init__, lines 437-455): scan
all members, then run the hardlink fixup only when the format argument
given to the constructor is one of the two new magics. -/
def cpioOpenRead (data : List Byte) (format : Option Format) :
    Except PyErr (List CpioEntry) :=
  match scanLoop { data := data, pos := 0 } [] with
  | .error e => .error e
  | .ok ms =>
    .ok (if format = some .newAscii ∨ format = some .newCrc then
           fix_hardlinks ms
         else ms)

/-- CpioEntry.seek (src/cpio.py lines 375-397).  whence is the io constant
(0 = SET, 1 = CUR, 2 = END; any other value leaves the position alone, as
the if chain has no else); the position is then clamped into [0, size] and
returned.  On a member that is not a regular file the operation raises
io.UnsupportedOperation before touching anything, so the error carries the
unchanged entry. -/
def CpioEntry.seek (e : CpioEntry) (offset : Int) (whence : Nat) :
    Except (PyErr × CpioEntry) (Int × CpioEntry) :=
  if ¬ S_ISREG e.mode then .error (.unsupportedOperation, e)
  else
    let p0 : Int :=
      if whence = 0 then offset
      else if whence = 1 then e.position + offset
      else if whence = 2 then e.position - offset
      else e.position
    let p := min (max 0 p0) (e.size : Int)
    .ok (p, { e with position := p })

/-- CpioEntry.tell (lines 399-409). -/
def CpioEntry.tell (e : CpioEntry) : Except PyErr Int :=
  if ¬ S_ISREG e.mode then .error .unsupportedOperation else .ok e.position

/-- CpioEntry.read (src/cpio.py lines 347-373).  The member reads from the
shared backing stream: it reseeks to filepos + position when the stream is
elsewhere, returns an empty string at member EOF, otherwise reads at most
the remaining bytes.  On a member that is not a regular file the operation
raises io.UnsupportedOperation first, so the error carries the unchanged
entry and stream. -/
def CpioEntry.read (e : CpioEntry) (s : Stream) (n : Int) :
    Except (PyErr × CpioEntry × Stream) (List Byte × CpioEntry × Stream) :=
  if ¬ S_ISREG e.mode then .error (.unsupportedOperation, e, s)
  else match e.filepos with
  | none => .error (.typeError, e, s)
  | some fp =>
    let target : Int := (fp : Int) + e.position
    if target < 0 then .error (.ioError, e, s)
    else
      let s1 := if (s.pos : Int) ≠ target then { s with pos := target.toNat } else s
      if (s1.pos : Int) = (fp : Int) + (e.size : Int) then .ok ([], e, s1)
      else
        let count : Int :=
          if n < 0 ∨ n ≥ (e.size : Int) - e.position then (e.size : Int) - e.position
          else n
        let r := readS count.toNat s1
        .ok (r.1, { e with position := e.position + r.1.length }, r.2)

/-- The attributes CpioFile.__init__ actually sets on the archive object:
the member list, the backing file object and the format argument.  There is
no mode attribute. -/
structure CpioFileSt where
  members : List CpioEntry
  fileobj : Option Stream
  format : Option Format
deriving DecidableEq, Repr

/-- The result of os.lstat (external collaborator of CpioFile.write). -/
structure LStat where
  st_dev : Nat
  st_ino : Nat
  st_mode : Nat
  st_uid : Nat
  st_gid : Nat
  st_nlink : Nat
  st_mtime : Nat
  st_size : Nat
  st_rdev : Option Nat
deriving DecidableEq, Repr

/-- CpioFile.write (src/cpio.py lines 578-615), called with no keyword
arguments.  It builds a member from the lstat metadata (lines 580-595) and
then evaluates stat.S_ISREG(self.mode) on line 602; CpioFile.__init__ never
sets a mode attribute on the archive object (and the class has no
_write_member method either), so the attribute lookup raises
AttributeError before any byte is written, leaving the archive and its
stream untouched. -/
def CpioFile.write (ar : CpioFileSt) (path : List Byte) (pstat : LStat) :
    Except (PyErr × CpioFileSt) CpioFileSt :=
  let _member : CpioEntry :=
    { dev := pstat.st_dev, ino := pstat.st_ino, mode := pstat.st_mode,
      uid := pstat.st_uid, gid := pstat.st_gid, nlink := pstat.st_nlink,
      mtime := pstat.st_mtime, size := pstat.st_size, name := path,
      rdev := (match pstat.st_rdev with | some r => r | none => 0) }
  .error (.attributeError, ar)

/-- CpioFile.flush (src/cpio.py lines 565-568).  Despite its docstring it
writes no trailer member: it only calls fileobj.flush(), which appends no
bytes (returned as the empty written list).  On a closed archive,
fileobj is None and None.flush() raises AttributeError. -/
def CpioFile.flush (ar : CpioFileSt) :
    Except (PyErr × CpioFileSt) (CpioFileSt × List Byte) :=
  match ar.fileobj with
  | none => .error (.attributeError, ar)
  | some _ => .ok (ar, [])

/-- CpioFile.close (src/cpio.py lines 492-504).  When already closed it
returns at once; otherwise it flushes (the trailer write of lines 500-501
is commented out in the source) and releases the stream handle.  The
second component is the list of bytes written during the close: always
empty. -/
def CpioFile.close (ar : CpioFileSt) :
    Except (PyErr × CpioFileSt) (CpioFileSt × List Byte) :=
  match ar.fileobj with
  | none => .ok (ar, [])
  | some _ => .ok ({ ar with fileobj := none }, [])

/-- CpioFile.closed (lines 506-508). -/
def CpioFile.closed (ar : CpioFileSt) : Bool := ar.fileobj.isNone

/-- CpioFile.namelist (lines 570-572): iterates self._members only, so it
works even after close. -/
def CpioFile.namelist (ar : CpioFileSt) : List (List Byte) :=
  ar.members.map (fun m => m.name)

/-- The folding step of parseBase. -/
def parseStep (base : Nat) (digVal : Byte → Option Nat) (acc : Option Nat) (c : Byte) : Option Nat :=
  match acc, digVal c with
  | some a, some d => some (a * base + d)
  | _, _ => none

theorem parseBase_eq_foldl (base digVal s) :
    parseBase base digVal s = if s = [] then none else s.foldl (parseStep base digVal) (some 0) := by
  unfold parseBase parseStep
  rfl

theorem parseStep_none (base digVal c) : parseStep base digVal none c = none := by
  unfold parseStep
  cases digVal c <;> rfl

theorem hexDigitVal_hexChar {d : Nat} (h : d < 16) : hexDigitVal (hexChar d) = some d := by
  unfold hexDigitVal hexChar
  rcases Nat.lt_or_ge d 10 with h10 | h10
  · rw [if_pos h10, if_pos (by omega : 48 ≤ 48 + d ∧ 48 + d ≤ 57)]
    congr 1
    omega
  · rw [if_neg (by omega : ¬ d < 10), if_neg (by omega : ¬ (48 ≤ 87 + d ∧ 87 + d ≤ 57)),
        if_pos (by omega : 97 ≤ 87 + d ∧ 87 + d ≤ 102)]
    congr 1
    omega

theorem hexStr_foldl (n : Nat) : ∀ a : Nat,
    (hexStr n).foldl (parseStep 16 hexDigitVal) (some a) =
      some (a * 16 ^ (hexStr n).length + n) := by
  induction n using Nat.strong_induction_on with
  | _ n ih =>
    intro a
    rw [hexStr]
    split
    case isTrue h =>
      simp [List.foldl, parseStep, hexDigitVal_hexChar h]
    case isFalse h =>
      rw [List.foldl_append]
      rw [ih (n / 16) (Nat.div_lt_self (by omega) (by omega)) a]
      have hd : hexDigitVal (hexChar (n % 16)) = some (n % 16) :=
        hexDigitVal_hexChar (Nat.mod_lt _ (by omega))
      simp only [List.foldl, parseStep, hd, List.length_append, List.length_cons,
        List.length_nil]
      have hdm : n / 16 * 16 + n % 16 = n := by omega
      have hk : ∀ L q r : Nat, (a * 16 ^ L + q) * 16 + r = a * 16 ^ (L + 1) + (q * 16 + r) := by
        intro L q r
        rw [pow_succ]
        ring
      rw [hk, hdm]

theorem foldl_zeros48 (k : Nat) :
    (List.replicate k 48).foldl (parseStep 16 hexDigitVal) (some 0) = some 0 := by
  induction k with
  | zero => rfl
  | succ k ih =>
    rw [List.replicate_succ, List.foldl_cons]
    have : parseStep 16 hexDigitVal (some 0) 48 = some 0 := rfl
    rw [this, ih]

theorem hexStr_ne_nil (n : Nat) : hexStr n ≠ [] := by
  rw [hexStr]
  split <;> simp

/-- int(x, 16) recovers the value from the 0>8x formatting. -/
theorem parseHex_hex8 (n : Nat) : parseHex (hex8 n) = some n := by
  unfold parseHex hex8 pad0
  rw [parseBase_eq_foldl]
  split
  case isTrue h =>
    exact absurd h (by simp [hexStr_ne_nil])
  case isFalse h =>
    rw [List.foldl_append, foldl_zeros48, hexStr_foldl]
    simp

theorem hexStr_length_le : ∀ k n : Nat, n < 16 ^ (k + 1) → (hexStr n).length ≤ k + 1 := by
  intro k
  induction k with
  | zero =>
    intro n hn
    rw [hexStr]
    split
    · simp
    · omega
  | succ k ih =>
    intro n hn
    rw [hexStr]
    split
    · simp
    case isFalse h =>
      have hdiv : n / 16 < 16 ^ (k + 1) := by
        rw [Nat.div_lt_iff_lt_mul (by omega)]
        calc n < 16 ^ (k + 1 + 1) := hn
        _ = 16 ^ (k + 1) * 16 := by rw [pow_succ]
      have := ih (n / 16) hdiv
      simp only [List.length_append, List.length_cons, List.length_nil]
      omega

theorem hex8_length {n : Nat} (h : n < 4294967296) : (hex8 n).length = 8 := by
  have hle : (hexStr n).length ≤ 8 := hexStr_length_le 7 n (by norm_num; omega)
  unfold hex8 pad0
  simp only [List.length_append, List.length_replicate]
  omega

theorem take_pre {α : Type} {n : Nat} {a : List α} (b : List α) (h : a.length = n) :
    (a ++ b).take n = a := by
  rw [← h]
  exact List.take_left a b

theorem drop_pre {α : Type} {n : Nat} {a : List α} (b : List α) (h : a.length = n) :
    (a ++ b).drop n = b := by
  rw [← h]
  exact List.drop_left a b

theorem drop_chain {α : Type} {l a t : List α} {n k : Nat}
    (hl : l.drop n = a ++ t) (ha : a.length = k) : l.drop (n + k) = t := by
  rw [← List.drop_drop, hl, drop_pre t ha]

theorem readS_exact {data chunk rest : List Byte} {pos n : Nat}
    (h : data.drop pos = chunk ++ rest) (hn : chunk.length = n) :
    readS n ⟨data, pos⟩ = (chunk, ⟨data, pos + n⟩) ∧ data.drop (pos + n) = rest := by
  constructor
  · unfold readS
    rw [h, take_pre rest hn]
    simp [hn]
  · rw [← List.drop_drop, h, drop_pre rest hn]

/-- The numeric bounds under which every hexadecimal field of a new-format
header is formatted in exactly 8 characters. -/
def WFBounds (e : CpioEntry) (c : Nat) : Prop :=
  e.ino < 4294967296 ∧ e.mode < 4294967296 ∧ e.uid < 4294967296 ∧
  e.gid < 4294967296 ∧ e.nlink < 4294967296 ∧ e.mtime < 4294967296 ∧
  e.size < 4294967296 ∧ os_major e.dev < 4294967296 ∧
  os_minor e.dev < 4294967296 ∧ os_major e.rdev < 4294967296 ∧
  os_minor e.rdev < 4294967296 ∧ e.name.length + 1 < 4294967296 ∧
  c < 4294967296

/-- A well-formed new-format record: size matches the data, all header
fields fit in 8 hexadecimal digits, and only regular files and symbolic
links carry data (to_fileobj writes the data of any member, but
from_fileobj advances past a data region only for those two types, so a
record of any other type is in-sync only with an empty data region). -/
def WFNewEnc (e : CpioEntry) (c : Nat) (d : List Byte) : Prop :=
  e.size = d.length ∧ WFBounds e c ∧
  (d ≠ [] → S_ISREG e.mode = true ∨ S_ISLNK e.mode = true)

/-- The entry produced by from_fileobj when it reads back a record that
to_fileobj emitted in a new format for entry e with check value c and
data d, the record starting at stream position base. -/
def decodedNew (e : CpioEntry) (c : Nat) (d : List Byte) (base : Nat) : CpioEntry :=
  { dev := os_makedev (os_major e.dev) (os_minor e.dev),
    ino := e.ino, mode := e.mode, uid := e.uid, gid := e.gid,
    nlink := e.nlink, mtime := e.mtime,
    rdev := os_makedev (os_major e.rdev) (os_minor e.rdev),
    size := e.size, check := some c,
    target := if S_ISLNK e.mode then some d else none,
    name := e.name,
    filepos := if S_ISREG e.mode then
        some (base + 111 + e.name.length + hpadNew e.name.length)
      else none,
    position := 0 }

theorem reg_not_lnk {m : Nat} (h : S_ISREG m = true) : S_ISLNK m = false := by
  simp only [S_ISREG, beq_iff_eq] at h
  simp only [S_ISLNK, beq_eq_false_iff_ne, ne_eq, h]
  omega

theorem newHeaderName_length {M : List Byte} {e : CpioEntry} {c : Nat}
    (hM : M.length = 6) (hb : WFBounds e c) :
    (newHeaderName M e c).length = 111 + e.name.length + hpadNew e.name.length := by
  obtain ⟨h1, h2, h3, h4, h5, h6, h7, h8, h9, h10, h11, h12, h13⟩ := hb
  simp only [newHeaderName, List.length_append, hM, hex8_length h1, hex8_length h2,
    hex8_length h3, hex8_length h4, hex8_length h5, hex8_length h6, hex8_length h7,
    hex8_length h8, hex8_length h9, hex8_length h10, hex8_length h11,
    hex8_length h12, hex8_length h13, List.length_replicate, List.length_cons,
    List.length_nil]
  omega


theorem take_len {α : Type} {a : List α} {n : Nat} (h : a.length = n) : a.take n = a := by
  rw [← h]
  exact List.take_length a

theorem slices13 {M F1 F2 F3 F4 F5 F6 F7 F8 F9 F10 F11 F12 F13 : List Byte}
    (hM : M.length = 6) (h1 : F1.length = 8) (h2 : F2.length = 8)
    (h3 : F3.length = 8) (h4 : F4.length = 8) (h5 : F5.length = 8)
    (h6 : F6.length = 8) (h7 : F7.length = 8) (h8 : F8.length = 8)
    (h9 : F9.length = 8) (h10 : F10.length = 8) (h11 : F11.length = 8)
    (h12 : F12.length = 8) (h13 : F13.length = 8) :
    ((M ++ (F1 ++ (F2 ++ (F3 ++ (F4 ++ (F5 ++ (F6 ++ (F7 ++ (F8 ++ (F9 ++
      (F10 ++ (F11 ++ (F12 ++ F13))))))))))))).drop 6).take 8 = F1 ∧
    ((M ++ (F1 ++ (F2 ++ (F3 ++ (F4 ++ (F5 ++ (F6 ++ (F7 ++ (F8 ++ (F9 ++
      (F10 ++ (F11 ++ (F12 ++ F13))))))))))))).drop 14).take 8 = F2 ∧
    ((M ++ (F1 ++ (F2 ++ (F3 ++ (F4 ++ (F5 ++ (F6 ++ (F7 ++ (F8 ++ (F9 ++
      (F10 ++ (F11 ++ (F12 ++ F13))))))))))))).drop 22).take 8 = F3 ∧
    ((M ++ (F1 ++ (F2 ++ (F3 ++ (F4 ++ (F5 ++ (F6 ++ (F7 ++ (F8 ++ (F9 ++
      (F10 ++ (F11 ++ (F12 ++ F13))))))))))))).drop 30).take 8 = F4 ∧
    ((M ++ (F1 ++ (F2 ++ (F3 ++ (F4 ++ (F5 ++ (F6 ++ (F7 ++ (F8 ++ (F9 ++
      (F10 ++ (F11 ++ (F12 ++ F13))))))))))))).drop 38).take 8 = F5 ∧
    ((M ++ (F1 ++ (F2 ++ (F3 ++ (F4 ++ (F5 ++ (F6 ++ (F7 ++ (F8 ++ (F9 ++
      (F10 ++ (F11 ++ (F12 ++ F13))))))))))))).drop 46).take 8 = F6 ∧
    ((M ++ (F1 ++ (F2 ++ (F3 ++ (F4 ++ (F5 ++ (F6 ++ (F7 ++ (F8 ++ (F9 ++
      (F10 ++ (F11 ++ (F12 ++ F13))))))))))))).drop 54).take 8 = F7 ∧
    ((M ++ (F1 ++ (F2 ++ (F3 ++ (F4 ++ (F5 ++ (F6 ++ (F7 ++ (F8 ++ (F9 ++
      (F10 ++ (F11 ++ (F12 ++ F13))))))))))))).drop 62).take 8 = F8 ∧
    ((M ++ (F1 ++ (F2 ++ (F3 ++ (F4 ++ (F5 ++ (F6 ++ (F7 ++ (F8 ++ (F9 ++
      (F10 ++ (F11 ++ (F12 ++ F13))))))))))))).drop 70).take 8 = F9 ∧
    ((M ++ (F1 ++ (F2 ++ (F3 ++ (F4 ++ (F5 ++ (F6 ++ (F7 ++ (F8 ++ (F9 ++
      (F10 ++ (F11 ++ (F12 ++ F13))))))))))))).drop 78).take 8 = F10 ∧
    ((M ++ (F1 ++ (F2 ++ (F3 ++ (F4 ++ (F5 ++ (F6 ++ (F7 ++ (F8 ++ (F9 ++
      (F10 ++ (F11 ++ (F12 ++ F13))))))))))))).drop 86).take 8 = F11 ∧
    ((M ++ (F1 ++ (F2 ++ (F3 ++ (F4 ++ (F5 ++ (F6 ++ (F7 ++ (F8 ++ (F9 ++
      (F10 ++ (F11 ++ (F12 ++ F13))))))))))))).drop 94).take 8 = F12 ∧
    ((M ++ (F1 ++ (F2 ++ (F3 ++ (F4 ++ (F5 ++ (F6 ++ (F7 ++ (F8 ++ (F9 ++
      (F10 ++ (F11 ++ (F12 ++ F13))))))))))))).drop 102).take 8 = F13 := by
  have d6 : (M ++ (F1 ++ (F2 ++ (F3 ++ (F4 ++ (F5 ++ (F6 ++ (F7 ++ (F8 ++
      (F9 ++ (F10 ++ (F11 ++ (F12 ++ F13))))))))))))).drop 6 =
      F1 ++ (F2 ++ (F3 ++ (F4 ++ (F5 ++ (F6 ++ (F7 ++ (F8 ++ (F9 ++
      (F10 ++ (F11 ++ (F12 ++ F13))))))))))) := drop_pre _ hM
  have d14 := drop_chain d6 h1
  norm_num at d14
  have d22 := drop_chain d14 h2
  norm_num at d22
  have d30 := drop_chain d22 h3
  norm_num at d30
  have d38 := drop_chain d30 h4
  norm_num at d38
  have d46 := drop_chain d38 h5
  norm_num at d46
  have d54 := drop_chain d46 h6
  norm_num at d54
  have d62 := drop_chain d54 h7
  norm_num at d62
  have d70 := drop_chain d62 h8
  norm_num at d70
  have d78 := drop_chain d70 h9
  norm_num at d78
  have d86 := drop_chain d78 h10
  norm_num at d86
  have d94 := drop_chain d86 h11
  norm_num at d94
  have d102 := drop_chain d94 h12
  norm_num at d102
  refine ⟨?_, ?_, ?_, ?_, ?_, ?_, ?_, ?_, ?_, ?_, ?_, ?_, ?_⟩
  · rw [d6]; exact take_pre _ h1
  · rw [d14]; exact take_pre _ h2
  · rw [d22]; exact take_pre _ h3
  · rw [d30]; exact take_pre _ h4
  · rw [d38]; exact take_pre _ h5
  · rw [d46]; exact take_pre _ h6
  · rw [d54]; exact take_pre _ h7
  · rw [d62]; exact take_pre _ h8
  · rw [d70]; exact take_pre _ h9
  · rw [d78]; exact take_pre _ h10
  · rw [d86]; exact take_pre _ h11
  · rw [d94]; exact take_pre _ h12
  · rw [d102]; exact take_len h13

set_option maxHeartbeats 1000000 in
/-- Reading back one record written in a new format: the checksum is
verified exactly when the magic is the CRC one and the member is a regular
file, and otherwise the decoded entry reproduces the written fields, with
the stream left exactly after the record. -/
theorem from_fileobj_newRecord {fmt : Format} {e : CpioEntry} {c : Nat}
    {d rest sd : List Byte} {sp : Nat}
    (hf : fmt = .newAscii ∨ fmt = .newCrc)
    (hwf : WFNewEnc e c d)
    (hs : sd.drop sp = newRecordBytes (magicNew fmt) e c d ++ rest) :
    from_fileobj ⟨sd, sp⟩ =
      if fmt = .newCrc ∧ S_ISREG e.mode = true ∧ c ≠ checksum32 d then
        .error (.checksumError e.name)
      else
        .ok (decodedNew e c d sp,
             ⟨sd, sp + (newRecordBytes (magicNew fmt) e c d).length⟩) := by
  obtain ⟨hsz, hb, hdty⟩ := hwf
  obtain ⟨b1, b2, b3, b4, b5, b6, b7, b8, b9, b10, b11, b12, b13⟩ := hb
  have hM6 : (magicNew fmt).length = 6 := by
    rcases hf with h | h <;> subst h <;> decide
  have hMor : magicNew fmt = NEW_MAGIC ∨ magicNew fmt = CRC_MAGIC := by
    rcases hf with h | h <;> subst h
    · exact Or.inl rfl
    · exact Or.inr rfl
  have hMcrc : (magicNew fmt = CRC_MAGIC) ↔ (fmt = Format.newCrc) := by
    rcases hf with h | h <;> subst h <;> simp [magicNew] <;> decide
  have l1 := hex8_length b1
  have l2 := hex8_length b2
  have l3 := hex8_length b3
  have l4 := hex8_length b4
  have l5 := hex8_length b5
  have l6 := hex8_length b6
  have l7 := hex8_length b7
  have l8 := hex8_length b8
  have l9 := hex8_length b9
  have l10 := hex8_length b10
  have l11 := hex8_length b11
  have l12 := hex8_length b12
  have l13 := hex8_length b13
  have hs1 : sd.drop sp = magicNew fmt ++
      ((hex8 e.ino ++ (hex8 e.mode ++ (hex8 e.uid ++ (hex8 e.gid ++
        (hex8 e.nlink ++ (hex8 e.mtime ++ (hex8 e.size ++
        (hex8 (os_major e.dev) ++ (hex8 (os_minor e.dev) ++
        (hex8 (os_major e.rdev) ++ (hex8 (os_minor e.rdev) ++
        (hex8 (e.name.length + 1) ++ hex8 c)))))))))))) ++
      ((e.name ++ ([0] ++ List.replicate (hpadNew e.name.length) 0)) ++
       (newDataRegion e d ++ rest))) := by
    rw [hs]
    simp only [newRecordBytes, newHeaderName, List.append_assoc]
  have r6 := readS_exact hs1 hM6
  have lFLAT : (hex8 e.ino ++ (hex8 e.mode ++ (hex8 e.uid ++ (hex8 e.gid ++
      (hex8 e.nlink ++ (hex8 e.mtime ++ (hex8 e.size ++
      (hex8 (os_major e.dev) ++ (hex8 (os_minor e.dev) ++
      (hex8 (os_major e.rdev) ++ (hex8 (os_minor e.rdev) ++
      (hex8 (e.name.length + 1) ++ hex8 c)))))))))))).length = 104 := by
    simp only [List.length_append, l1, l2, l3, l4, l5, l6, l7, l8, l9, l10,
      l11, l12, l13]
  have r104 := readS_exact r6.2 lFLAT
  obtain ⟨sl1, sl2, sl3, sl4, sl5, sl6, sl7, sl8, sl9, sl10, sl11, sl12, sl13⟩ :=
    slices13 hM6 l1 l2 l3 l4 l5 l6 l7 l8 l9 l10 l11 l12 l13
  have hne : ¬ (((magicNew fmt) ++ (hex8 e.ino ++ (hex8 e.mode ++ (hex8 e.uid ++ (hex8 e.gid ++
      (hex8 e.nlink ++ (hex8 e.mtime ++ (hex8 e.size ++
      (hex8 (os_major e.dev) ++ (hex8 (os_minor e.dev) ++
      (hex8 (os_major e.rdev) ++ (hex8 (os_minor e.rdev) ++
      (hex8 (e.name.length + 1) ++ hex8 c))))))))))))).length ≠ 110) := by
    simp only [List.length_append, hM6, lFLAT]
    omega
  have lNM : (e.name ++ ([0] ++ List.replicate (hpadNew e.name.length) 0)).length =
      e.name.length + 1 + hpadNew e.name.length := by
    simp only [List.length_append, List.length_replicate, List.length_cons,
      List.length_nil]
    omega
  have rNM := readS_exact r104.2 lNM
  have hname : pyTakeTo ((↑(e.name.length + 1) : Int) - 1)
      (e.name ++ ([0] ++ List.replicate (hpadNew e.name.length) 0)) = e.name := by
    unfold pyTakeTo
    rw [if_pos (by push_cast; omega)]
    have ht : (((e.name.length + 1 : Nat) : Int) - 1).toNat = e.name.length := by
      omega
    rw [ht]
    exact take_pre _ rfl
  have hpe : (4 - (110 + (e.name.length + 1)) % 4) % 4 = hpadNew e.name.length := by
    unfold hpadNew
    omega
  have lDR : (newDataRegion e d).length = e.size + (4 - e.size % 4) % 4 := by
    unfold newDataRegion dpadNew
    by_cases hd0 : d = []
    · rw [if_pos hd0]
      have h0 : e.size = 0 := by rw [hsz, hd0]; rfl
      rw [h0]
      decide
    · rw [if_neg hd0]
      simp only [List.length_append, List.length_replicate, hsz]
  have rDR := readS_exact rNM.2 lDR
  have hdata : (newDataRegion e d).take e.size = d := by
    unfold newDataRegion
    by_cases hd0 : d = []
    · rw [if_pos hd0, hd0]
      simp
    · rw [if_neg hd0]
      exact take_pre _ hsz.symm
  have hRL : (newRecordBytes (magicNew fmt) e c d).length =
      111 + e.name.length + hpadNew e.name.length +
        (newDataRegion e d).length := by
    simp only [newRecordBytes, List.length_append,
      newHeaderName_length hM6 ⟨b1, b2, b3, b4, b5, b6, b7, b8, b9, b10, b11, b12, b13⟩]
  simp only [from_fileobj, r6.1, r104.1]
  rw [if_pos hMor, if_neg hne]
  simp only [decodeNewRest, sl1, sl2, sl3, sl4, sl5, sl6, sl7, sl8, sl9, sl10,
    sl11, sl12, sl13, parseHex_hex8]
  rw [hpe]
  simp only [finishEntry, rNM.1, hname]
  rw [rDR.1]
  simp only [hdata]
  have hDRL := lDR
  by_cases hreg : S_ISREG e.mode = true
  · rw [if_pos hreg]
    by_cases hcrc : fmt = Format.newCrc
    · subst hcrc
      have hdec : decide (magicNew Format.newCrc = CRC_MAGIC) = true := by decide
      by_cases hchk : c = checksum32 d
      · have hc1 : ¬ (decide (magicNew Format.newCrc = CRC_MAGIC) = true ∧
            some c ≠ some (checksum32 d)) := by simp [hchk]
        have hc2 : ¬ (Format.newCrc = Format.newCrc ∧ S_ISREG e.mode = true ∧
            c ≠ checksum32 d) := by simp [hchk]
        rw [if_neg hc1, if_neg hc2]
        simp only [decodedNew, hreg, reg_not_lnk hreg, Bool.false_eq_true,
          if_true, if_false, ite_true, ite_false, Except.ok.injEq,
          Prod.mk.injEq, CpioEntry.mk.injEq, Stream.mk.injEq,
          Option.some.injEq, eq_self_iff_true, true_and, and_true]
        omega
      · have hc1 : decide (magicNew Format.newCrc = CRC_MAGIC) = true ∧
            some c ≠ some (checksum32 d) := ⟨hdec, by simp [hchk]⟩
        have hc2 : Format.newCrc = Format.newCrc ∧ S_ISREG e.mode = true ∧
            c ≠ checksum32 d := ⟨rfl, hreg, hchk⟩
        rw [if_pos hc1, if_pos hc2]
    · have hnew : magicNew fmt = NEW_MAGIC := by
        rcases hf with h | h
        · rw [h]
          rfl
        · exact absurd h hcrc
      have hdec : decide (magicNew fmt = CRC_MAGIC) = false := by
        rw [hnew]
        decide
      have hc1 : ¬ (decide (magicNew fmt = CRC_MAGIC) = true ∧
          some c ≠ some (checksum32 d)) := by simp [hdec]
      have hc2 : ¬ (fmt = Format.newCrc ∧ S_ISREG e.mode = true ∧
          c ≠ checksum32 d) := by simp [hcrc]
      rw [if_neg hc1, if_neg hc2]
      simp only [decodedNew, hreg, reg_not_lnk hreg, Bool.false_eq_true,
        if_true, if_false, ite_true, ite_false, Except.ok.injEq,
        Prod.mk.injEq, CpioEntry.mk.injEq, Stream.mk.injEq,
        Option.some.injEq, eq_self_iff_true, true_and, and_true]
      omega
  · have hc2 : ¬ (fmt = Format.newCrc ∧ S_ISREG e.mode = true ∧
        c ≠ checksum32 d) := by simp [hreg]
    rw [if_neg hreg, if_neg hc2]
    have hregf : S_ISREG e.mode = false := by
      revert hreg
      cases S_ISREG e.mode <;> simp
    by_cases hlnk : S_ISLNK e.mode = true
    · rw [if_pos hlnk]
      simp only [decodedNew, hregf, hlnk, Bool.false_eq_true,
        if_true, if_false, ite_true, ite_false, Except.ok.injEq,
        Prod.mk.injEq, CpioEntry.mk.injEq, Stream.mk.injEq,
        Option.some.injEq, eq_self_iff_true, true_and, and_true]
      omega
    · rw [if_neg hlnk]
      have hlnkf : S_ISLNK e.mode = false := by
        revert hlnk
        cases S_ISLNK e.mode <;> simp
      have hd0 : d = [] := by
        by_contra hne0
        rcases hdty hne0 with h | h
        · exact hreg h
        · exact hlnk h
      have hDR0 : (newDataRegion e d).length = 0 := by
        simp [newDataRegion, hd0]
      simp only [decodedNew, hregf, hlnkf, Bool.false_eq_true,
        if_true, if_false, ite_true, ite_false, Except.ok.injEq,
        Prod.mk.injEq, CpioEntry.mk.injEq, Stream.mk.injEq,
        Option.some.injEq, eq_self_iff_true, true_and, and_true]
      omega

/-- One synthetic member to be serialized: the entry, the format to write
it in, the value of the check field, and the data bytes. -/
structure Rec where
  ent : CpioEntry
  fmt : Format
  chk : Nat
  data : List Byte
deriving DecidableEq, Repr

/-- The bytes of one serialized record. -/
def recBytes (r : Rec) : List Byte :=
  newRecordBytes (magicNew r.fmt) r.ent r.chk r.data

/-- The byte stream of a list of serialized records. -/
def encodeAll (rs : List Rec) : List Byte := (rs.map recBytes).flatten

/-- Well-formedness of a record to be written then scanned back: a new
format, well-formed fields, a check value that matches the data when it
will be verified, and not the trailer sentinel name. -/
def RecWF (r : Rec) : Prop :=
  (r.fmt = .newAscii ∨ r.fmt = .newCrc) ∧ WFNewEnc r.ent r.chk r.data ∧
  (r.fmt = .newCrc → S_ISREG r.ent.mode = true → r.chk = checksum32 r.data) ∧
  r.ent.name ≠ trailerName

/-- The catalog the scan loop produces from a list of records laid out
from stream position base: members named "." are skipped. -/
def decodedList : List Rec → Nat → List CpioEntry
  | [], _ => []
  | r :: t, base =>
    (if r.ent.name = dotName then [] else [decodedNew r.ent r.chk r.data base]) ++
      decodedList t (base + (recBytes r).length)

/-- A record whose decoded name is the trailer sentinel. -/
def trailerRec : Rec := { ent := {}, fmt := .newAscii, chk := 0, data := [] }

theorem trailerRec_wf : WFNewEnc trailerRec.ent trailerRec.chk trailerRec.data := by
  constructor
  · rfl
  constructor
  · refine ⟨?_, ?_, ?_, ?_, ?_, ?_, ?_, ?_, ?_, ?_, ?_, ?_, ?_⟩ <;> decide
  · intro h
    exact absurd rfl h

/-- At the end of the stream the scan of the next header raises
struct.error: read(6) returns the empty string, which matches no magic,
and unpacking its first two bytes fails. -/
theorem from_fileobj_atEnd {sd : List Byte} {sp : Nat} (h : sd.drop sp = []) :
    from_fileobj ⟨sd, sp⟩ = .error .structError := by
  have hr : readS 6 ⟨sd, sp⟩ = ([], ⟨sd, sp⟩) := by
    simp [readS, h]
  simp [from_fileobj, hr, NEW_MAGIC, CRC_MAGIC, OLD_MAGIC, strBytes]

theorem scanLoop_atEnd {sd : List Byte} {sp : Nat} (h : sd.drop sp = [])
    (acc : List CpioEntry) : scanLoop ⟨sd, sp⟩ acc = .error .structError := by
  rw [scanLoop]
  split
  · rename_i e heq
    rw [from_fileobj_atEnd h] at heq
    injection heq with h2
    rw [← h2]
  · rename_i ent s2 heq
    rw [from_fileobj_atEnd h] at heq
    exact absurd heq (by simp)

theorem decodedNew_name (e c d base) : (decodedNew e c d base).name = e.name := rfl

/-- Scanning one well-formed non-trailer record appends its decoded entry
(unless it is named ".") and continues after the record. -/
theorem scanLoop_step {r : Rec} (hwf : RecWF r) {sd rest : List Byte} {sp : Nat}
    (hs : sd.drop sp = recBytes r ++ rest) (acc : List CpioEntry) :
    scanLoop ⟨sd, sp⟩ acc =
      scanLoop ⟨sd, sp + (recBytes r).length⟩
        (acc ++ if r.ent.name = dotName then []
                else [decodedNew r.ent r.chk r.data sp]) := by
  obtain ⟨hfmt, hwfe, hchk, hname⟩ := hwf
  have hnochk : ¬ (r.fmt = .newCrc ∧ S_ISREG r.ent.mode = true ∧
      r.chk ≠ checksum32 r.data) := by
    rintro ⟨h1, h2, h3⟩
    exact h3 (hchk h1 h2)
  have hfo : from_fileobj ⟨sd, sp⟩ =
      .ok (decodedNew r.ent r.chk r.data sp, ⟨sd, sp + (recBytes r).length⟩) := by
    rw [from_fileobj_newRecord hfmt hwfe hs, if_neg hnochk]
    rfl
  rw [scanLoop]
  split
  · rename_i e heq
    rw [hfo] at heq
    exact absurd heq (by simp)
  · rename_i ent s2 heq
    rw [hfo] at heq
    injection heq with hpair
    rw [Prod.mk.injEq] at hpair
    obtain ⟨he, hs2⟩ := hpair
    subst he
    subst hs2
    rw [decodedNew_name, if_neg hname]

/-- Scanning a trailer record stops at once with the catalog collected so
far, without emitting the trailer. -/
theorem scanLoop_trailer {sd rest : List Byte} {sp : Nat}
    (hs : sd.drop sp = recBytes trailerRec ++ rest) (acc : List CpioEntry) :
    scanLoop ⟨sd, sp⟩ acc = .ok acc := by
  have hfo : from_fileobj ⟨sd, sp⟩ =
      .ok (decodedNew trailerRec.ent trailerRec.chk trailerRec.data sp,
           ⟨sd, sp + (recBytes trailerRec).length⟩) := by
    rw [from_fileobj_newRecord (Or.inl rfl) trailerRec_wf hs]
    rw [if_neg (by simp)]
    rfl
  rw [scanLoop]
  split
  · rename_i e heq
    rw [hfo] at heq
    exact absurd heq (by simp)
  · rename_i ent s2 heq
    rw [hfo] at heq
    injection heq with hpair
    rw [Prod.mk.injEq] at hpair
    obtain ⟨he, hs2⟩ := hpair
    subst he
    subst hs2
    rw [decodedNew_name, if_pos (show trailerRec.ent.name = trailerName by rfl)]

/-- Scanning the concatenation of well-formed records consumes them all,
collecting the decoded entries of those not named ".". -/
theorem scanLoop_encodedAll (rs : List Rec) (hwf : ∀ r ∈ rs, RecWF r) :
    ∀ (sp : Nat) (sd rest : List Byte) (acc : List CpioEntry),
      sd.drop sp = encodeAll rs ++ rest →
      scanLoop ⟨sd, sp⟩ acc =
        scanLoop ⟨sd, sp + (encodeAll rs).length⟩ (acc ++ decodedList rs sp) := by
  induction rs with
  | nil =>
    intro sp sd rest acc hs
    simp [decodedList, encodeAll]
  | cons r t ih =>
    intro sp sd rest acc hs
    have hs1 : sd.drop sp = recBytes r ++ (encodeAll t ++ rest) := by
      rw [hs]
      simp [encodeAll, List.append_assoc]
    rw [scanLoop_step (hwf r (by simp)) hs1]
    have hs2 : sd.drop (sp + (recBytes r).length) = encodeAll t ++ rest := by
      have := readS_exact hs1 rfl
      exact this.2
    rw [ih (fun x hx => hwf x (by simp [hx])) _ _ rest _ hs2]
    have hlen : (encodeAll (r :: t)).length =
        (recBytes r).length + (encodeAll t).length := by
      simp [encodeAll]
    rw [decodedList]
    simp only [List.append_assoc, hlen]
    have : sp + (recBytes r).length + (encodeAll t).length =
        sp + ((recBytes r).length + (encodeAll t).length) := by omega
    rw [this]

/-- Scanning records followed by a trailer yields exactly the decoded
catalog. -/
theorem scanLoop_full (rs : List Rec) (hwf : ∀ r ∈ rs, RecWF r) :
    scanLoop ⟨encodeAll rs ++ recBytes trailerRec, 0⟩ [] =
      .ok (decodedList rs 0) := by
  rw [scanLoop_encodedAll rs hwf 0 _ (recBytes trailerRec) [] (by simp)]
  have hdrop : (encodeAll rs ++ recBytes trailerRec).drop (0 + (encodeAll rs).length) =
      recBytes trailerRec ++ [] := by
    rw [Nat.zero_add, List.drop_left]
    simp
  rw [scanLoop_trailer hdrop]
  simp

/-- Scanning records not followed by a trailer ends in struct.error at the
end of the stream. -/
theorem scanLoop_trunc (rs : List Rec) (hwf : ∀ r ∈ rs, RecWF r) :
    scanLoop ⟨encodeAll rs, 0⟩ [] = .error .structError := by
  rw [scanLoop_encodedAll rs hwf 0 _ [] [] (by simp)]
  exact scanLoop_atEnd (by rw [Nat.zero_add, List.drop_length]) _

/-- The record filter matching the scan loop: keep those not named ".". -/
def keepRec (r : Rec) : Bool := decide (¬ r.ent.name = dotName)

theorem decodedList_map_name (rs : List Rec) : ∀ base : Nat,
    (decodedList rs base).map (fun m => m.name) =
      (rs.filter keepRec).map (fun r => r.ent.name) := by
  induction rs with
  | nil =>
    intro base
    rfl
  | cons r t ih =>
    intro base
    by_cases hd : r.ent.name = dotName
    · simp [decodedList, keepRec, hd, ih]
    · simp [decodedList, keepRec, hd, ih, decodedNew_name]

theorem decodedList_length (rs : List Rec) (base : Nat) :
    (decodedList rs base).length = (rs.filter keepRec).length := by
  have h := congrArg List.length (decodedList_map_name rs base)
  simpa using h

theorem foldl_map_length {α β : Type} (f : α → β → β) :
    ∀ (L : List α) (acc : List β),
      (L.foldl (fun a i => a.map (f i)) acc).length = acc.length := by
  intro L
  induction L with
  | nil => intro acc; rfl
  | cons x t ih =>
    intro acc
    rw [List.foldl_cons, ih]
    simp

theorem fix_hardlinks_length (ms : List CpioEntry) :
    (fix_hardlinks ms).length = ms.length := by
  unfold fix_hardlinks
  exact foldl_map_length linkStep (ms.filter hasdata) ms

theorem linkStep_name (i l : CpioEntry) : (linkStep i l).name = l.name := by
  unfold linkStep rewriteFrom
  split <;> rfl

theorem foldl_map_name : ∀ (L : List CpioEntry) (acc : List CpioEntry),
    ((L.foldl (fun a i => a.map (linkStep i)) acc).map (fun m => m.name)) =
      acc.map (fun m => m.name) := by
  intro L
  induction L with
  | nil => intro acc; rfl
  | cons x t ih =>
    intro acc
    rw [List.foldl_cons, ih]
    simp [List.map_map, Function.comp_def, linkStep_name]

theorem fix_hardlinks_names (ms : List CpioEntry) :
    (fix_hardlinks ms).map (fun m => m.name) = ms.map (fun m => m.name) := by
  unfold fix_hardlinks
  exact foldl_map_name (ms.filter hasdata) ms

/-- Opening the serialized records plus trailer for reading: the scan
succeeds and the hardlink fixup runs only for a new-format argument. -/
theorem cpioOpenRead_ok (rs : List Rec) (hwf : ∀ r ∈ rs, RecWF r)
    (fmtArg : Option Format) :
    cpioOpenRead (encodeAll rs ++ recBytes trailerRec) fmtArg =
      .ok (if fmtArg = some .newAscii ∨ fmtArg = some .newCrc then
             fix_hardlinks (decodedList rs 0)
           else decodedList rs 0) := by
  unfold cpioOpenRead
  rw [scanLoop_full rs hwf]

/-- Opening serialized records with no trailer raises struct.error. -/
theorem cpioOpenRead_trunc (rs : List Rec) (hwf : ∀ r ∈ rs, RecWF r)
    (fmtArg : Option Format) :
    cpioOpenRead (encodeAll rs) fmtArg = .error .structError := by
  unfold cpioOpenRead
  rw [scanLoop_trunc rs hwf]

/-- to_fileobj in a new format emits exactly the record bytes, updating
filepos only when data is written. -/
theorem to_fileobj_new {e : CpioEntry} {fmt : Format} {data : List Byte}
    {tell : Nat} {c : Nat} (hf : fmt = .newAscii ∨ fmt = .newCrc)
    (hc : e.check = some c) :
    to_fileobj e fmt data tell =
      .ok (newRecordBytes (magicNew fmt) e c data,
           if data = [] then e
           else { e with
                  filepos := some (tell + (newHeaderName (magicNew fmt) e c).length) }) := by
  rcases hf with h | h
  all_goals
    subst h
    unfold to_fileobj
    rw [hc]
    by_cases hd : data = []
    · simp [newRecordBytes, newDataRegion, hd]
    · simp [newRecordBytes, newDataRegion, hd]

theorem foldl_map_comm {α β : Type} (f : α → β → β) :
    ∀ (L : List α) (ms : List β),
      L.foldl (fun acc i => acc.map (f i)) ms =
        ms.map (fun m => L.foldl (fun cur i => f i cur) m) := by
  intro L
  induction L with
  | nil =>
    intro ms
    simp
  | cons x t ih =>
    intro ms
    rw [List.foldl_cons, ih, List.map_map]
    simp [Function.comp_def]

theorem rewriteFrom_twice (k x m : CpioEntry) :
    rewriteFrom k (rewriteFrom x m) = rewriteFrom k m := rfl

theorem hasdata_rewriteFrom (x m : CpioEntry) :
    hasdata (rewriteFrom x m) = false := by
  simp [rewriteFrom, hasdata, islink]

/-- The last data-carrying member of the list sharing the device and inode
pair of m: the one whose metrics _fix_hardlinks leaves in m. -/
def lastMatch (ms : List CpioEntry) (m : CpioEntry) : Option CpioEntry :=
  ((ms.filter hasdata).filter
    (fun k => decide (m.ino = k.ino ∧ m.dev = k.dev))).getLast?

theorem elem_foldl_hasdata (L : List CpioEntry) (m : CpioEntry)
    (hm : hasdata m = true) :
    L.foldl (fun cur i => linkStep i cur) m = m := by
  induction L with
  | nil => rfl
  | cons x t ih =>
    rw [List.foldl_cons]
    have hstep : linkStep x m = m := by
      rw [linkStep, if_neg]
      simp [hm]
    rw [hstep, ih]

theorem elem_foldl_not_hasdata :
    ∀ (L : List CpioEntry) (m : CpioEntry), hasdata m = false →
      L.foldl (fun cur i => linkStep i cur) m =
        (match (L.filter (fun k => decide (m.ino = k.ino ∧ m.dev = k.dev))).getLast? with
         | some k => rewriteFrom k m
         | none => m) := by
  intro L
  induction L with
  | nil =>
    intro m hm
    rfl
  | cons x t ih =>
    intro m hm
    rw [List.foldl_cons, List.filter_cons]
    by_cases hx : m.ino = x.ino ∧ m.dev = x.dev
    · have hstep : linkStep x m = rewriteFrom x m := by
        rw [linkStep, if_pos]
        exact ⟨by simp [hm], hx.1, hx.2⟩
      rw [hstep, ih (rewriteFrom x m) (hasdata_rewriteFrom x m)]
      have hkeys : (fun k : CpioEntry => decide ((rewriteFrom x m).ino = k.ino ∧
          (rewriteFrom x m).dev = k.dev)) =
          (fun k : CpioEntry => decide (m.ino = k.ino ∧ m.dev = k.dev)) := rfl
      rw [hkeys, if_pos (by simp [hx.1, hx.2])]
      cases hfp : t.filter (fun k => decide (m.ino = k.ino ∧ m.dev = k.dev)) with
      | nil => rfl
      | cons y ys =>
        rw [List.getLast?_cons_cons]
        cases hsc : (y :: ys).getLast? with
        | none => simp at hsc
        | some k => rfl
    · have hstep : linkStep x m = m := by
        rw [linkStep, if_neg]
        intro hcon
        exact hx ⟨hcon.2.1, hcon.2.2⟩
      rw [hstep, ih m hm, if_neg (by simpa using hx)]

/-- Elementwise description of CpioFile._fix_hardlinks: members carrying
data are left unchanged; every other member sharing (dev, ino) with a
data-carrying member receives the filepos and size of the last such member
and link count 1; members with no data-carrying twin are unchanged. -/
theorem fix_hardlinks_spec (ms : List CpioEntry) (i : Nat) (h : i < ms.length)
    (h2 : i < (fix_hardlinks ms).length) :
    (fix_hardlinks ms).get ⟨i, h2⟩ =
      (if hasdata (ms.get ⟨i, h⟩) = true then ms.get ⟨i, h⟩
       else match lastMatch ms (ms.get ⟨i, h⟩) with
            | some k => rewriteFrom k (ms.get ⟨i, h⟩)
            | none => ms.get ⟨i, h⟩) := by
  have hmap : fix_hardlinks ms =
      ms.map (fun m => (ms.filter hasdata).foldl (fun cur i => linkStep i cur) m) := by
    unfold fix_hardlinks
    exact foldl_map_comm linkStep (ms.filter hasdata) ms
  have hget : (fix_hardlinks ms).get ⟨i, h2⟩ =
      (ms.filter hasdata).foldl (fun cur i => linkStep i cur) (ms.get ⟨i, h⟩) := by
    have := List.get_of_eq hmap ⟨i, h2⟩
    rw [this]
    simp [List.get_map]
  rw [hget]
  by_cases hm : hasdata (ms.get ⟨i, h⟩) = true
  · rw [if_pos hm]
    exact elem_foldl_hasdata _ _ hm
  · rw [if_neg hm]
    have hmf : hasdata (ms.get ⟨i, h⟩) = false := by
      revert hm
      cases hasdata (ms.get ⟨i, h⟩) <;> simp
    exact elem_foldl_not_hasdata _ _ hmf

/-- A regular file member used as concrete sample (mode 0o100644). -/
def fileEx : CpioEntry :=
  { dev := 1, ino := 5, mode := 33188, uid := 0, gid := 0, nlink := 2,
    mtime := 0, rdev := 0, size := 4, check := none, target := none,
    name := [102], filepos := some 100, position := 0 }

/-- A directory member sharing (dev, ino) with fileEx (mode 0o40755). -/
def dirEx : CpioEntry :=
  { dev := 1, ino := 5, mode := 16877, uid := 0, gid := 0, nlink := 2,
    mtime := 0, rdev := 0, size := 0, check := none, target := none,
    name := [100], filepos := none, position := 0 }

/-- A zero-size hardlink placeholder sharing (dev, ino) with fileEx. -/
def linkEx : CpioEntry :=
  { dev := 1, ino := 5, mode := 33188, uid := 0, gid := 0, nlink := 2,
    mtime := 0, rdev := 0, size := 0, check := none, target := none,
    name := [103], filepos := none, position := 0 }

/-- C1.  The claim reads a round trip through CpioFile.write; the code of
CpioFile.write is broken: it evaluates stat.S_ISREG(self.mode) although
CpioFile.__init__ never sets a mode attribute (and _write_member, which it
would call next, does not exist on the class), so every call raises
AttributeError with the archive unchanged, and no member is ever
serialized by this method. -/
theorem write_always_raises_attribute_error :
    ∀ (ar : CpioFileSt) (path : List Byte) (pstat : LStat),
      CpioFile.write ar path pstat = .error (.attributeError, ar) := by
  intro ar path pstat
  rfl

/-- C7.  CpioFile.close never writes a trailer record (the write is
commented out in the source): on an open archive, flush and close append
no bytes at all; after close the archive reports closed, but flush then
raises AttributeError on None rather than a dedicated closed error, and
namelist still succeeds, contradicting the claim that every operation on a
closed archive fails with a closed error. -/
theorem close_writes_no_trailer :
    ∀ (ar : CpioFileSt) (f : Stream), ar.fileobj = some f →
      CpioFile.flush ar = .ok (ar, []) ∧
      CpioFile.close ar = .ok ({ ar with fileobj := none }, []) ∧
      CpioFile.closed { ar with fileobj := none } = true ∧
      CpioFile.flush { ar with fileobj := none } =
        .error (.attributeError, { ar with fileobj := none }) ∧
      CpioFile.namelist { ar with fileobj := none } =
        ar.members.map (fun m => m.name) := by
  intro ar f h
  refine ⟨?_, ?_, ?_, ?_, ?_⟩ <;>
    simp [CpioFile.flush, CpioFile.close, CpioFile.closed, CpioFile.namelist, h]

theorem close_writes_no_trailer_witness :
    (({ members := [fileEx], fileobj := some ⟨[], 0⟩, format := none } :
        CpioFileSt).fileobj = some ⟨[], 0⟩) ∧
    (CpioFile.flush { members := [fileEx], fileobj := some ⟨[], 0⟩, format := none } =
      .ok ({ members := [fileEx], fileobj := some ⟨[], 0⟩, format := none }, []) ∧
     CpioFile.close { members := [fileEx], fileobj := some ⟨[], 0⟩, format := none } =
      .ok ({ members := [fileEx], fileobj := none, format := none }, []) ∧
     CpioFile.closed { members := [fileEx], fileobj := none, format := none } = true ∧
     CpioFile.flush { members := [fileEx], fileobj := none, format := none } =
      .error (.attributeError, { members := [fileEx], fileobj := none, format := none }) ∧
     CpioFile.namelist { members := [fileEx], fileobj := none, format := none } =
      [fileEx].map (fun m => m.name)) :=
  ⟨rfl, close_writes_no_trailer _ ⟨[], 0⟩ rfl⟩

/-- C9.  On a regular-file member, seek with any offset and whence clamps
the cursor into the interval from 0 to size and returns the resulting
absolute position. -/
theorem seek_clamps_cursor :
    ∀ (e : CpioEntry) (off : Int) (w : Nat), S_ISREG e.mode = true →
      ∃ p : Int, CpioEntry.seek e off w = .ok (p, { e with position := p }) ∧
        0 ≤ p ∧ p ≤ (e.size : Int) := by
  intro e off w h
  unfold CpioEntry.seek
  rw [if_neg (by simp [h])]
  refine ⟨_, rfl, ?_, ?_⟩
  · exact le_min (le_max_left 0 _) (by positivity)
  · exact min_le_right _ _

theorem seek_clamps_cursor_witness :
    S_ISREG fileEx.mode = true ∧
    ∃ p : Int, CpioEntry.seek fileEx 99 0 = .ok (p, { fileEx with position := p }) ∧
      0 ≤ p ∧ p ≤ (fileEx.size : Int) :=
  ⟨by decide, seek_clamps_cursor fileEx 99 0 (by decide)⟩

/-- C10.  On a member that is not a regular file, read, seek and tell all
raise io.UnsupportedOperation before touching anything: the errors carry
the unchanged entry and backing stream. -/
theorem nonregular_ops_raise :
    ∀ (e : CpioEntry) (s : Stream) (n off : Int) (w : Nat),
      S_ISREG e.mode = false →
      CpioEntry.read e s n = .error (.unsupportedOperation, e, s) ∧
      CpioEntry.seek e off w = .error (.unsupportedOperation, e) ∧
      CpioEntry.tell e = .error .unsupportedOperation := by
  intro e s n off w h
  refine ⟨?_, ?_, ?_⟩
  · unfold CpioEntry.read
    rw [if_pos (by simp [h])]
  · unfold CpioEntry.seek
    rw [if_pos (by simp [h])]
  · unfold CpioEntry.tell
    rw [if_pos (by simp [h])]

theorem nonregular_ops_raise_witness :
    S_ISREG dirEx.mode = false ∧
    (CpioEntry.read dirEx ⟨[], 0⟩ 1 = .error (.unsupportedOperation, dirEx, ⟨[], 0⟩) ∧
     CpioEntry.seek dirEx 3 0 = .error (.unsupportedOperation, dirEx) ∧
     CpioEntry.tell dirEx = .error .unsupportedOperation) :=
  ⟨by decide, nonregular_ops_raise dirEx ⟨[], 0⟩ 1 3 0 (by decide)⟩

instance (e : CpioEntry) (c : Nat) (d : List Byte) : Decidable (WFNewEnc e c d) := by
  unfold WFNewEnc WFBounds
  infer_instance

instance (r : Rec) : Decidable (RecWF r) := by
  unfold RecWF
  infer_instance

/-- A regular-file entry for checksum tests: size 2, name "f". -/
def crcEx : CpioEntry :=
  { dev := 0, ino := 7, mode := 33188, uid := 0, gid := 0, nlink := 1,
    mtime := 0, rdev := 0, size := 2, check := some 5, target := none,
    name := [102], filepos := none, position := 0 }

/-- The data bytes "hi". -/
def dataEx : List Byte := [104, 105]

set_option maxHeartbeats 1000000 in
/-- C2.  Reading a new CRC record of a regular file verifies checksum32
over the unpadded data and raises ChecksumError carrying the member name
exactly on mismatch; the same record bytes under the new ASCII magic are
read back successfully whatever the stored check value is. -/
theorem crc_checksum_verified :
    ∀ (e : CpioEntry) (c : Nat) (d rest : List Byte),
      WFNewEnc e c d → S_ISREG e.mode = true →
      (c ≠ checksum32 d →
        from_fileobj ⟨newRecordBytes (magicNew .newCrc) e c d ++ rest, 0⟩ =
          .error (.checksumError e.name)) ∧
      (c = checksum32 d →
        from_fileobj ⟨newRecordBytes (magicNew .newCrc) e c d ++ rest, 0⟩ =
          .ok (decodedNew e c d 0,
               ⟨newRecordBytes (magicNew .newCrc) e c d ++ rest,
                (newRecordBytes (magicNew .newCrc) e c d).length⟩)) ∧
      from_fileobj ⟨newRecordBytes (magicNew .newAscii) e c d ++ rest, 0⟩ =
        .ok (decodedNew e c d 0,
             ⟨newRecordBytes (magicNew .newAscii) e c d ++ rest,
              (newRecordBytes (magicNew .newAscii) e c d).length⟩) := by
  intro e c d rest hwf hreg
  have hcrc := from_fileobj_newRecord (Or.inr rfl) hwf
    (show (newRecordBytes (magicNew .newCrc) e c d ++ rest).drop 0 =
      newRecordBytes (magicNew .newCrc) e c d ++ rest from List.drop_zero _)
  have hnew := from_fileobj_newRecord (Or.inl rfl) hwf
    (show (newRecordBytes (magicNew .newAscii) e c d ++ rest).drop 0 =
      newRecordBytes (magicNew .newAscii) e c d ++ rest from List.drop_zero _)
  refine ⟨?_, ?_, ?_⟩
  · intro hne
    rw [hcrc, if_pos ⟨rfl, hreg, hne⟩]
  · intro heq
    rw [hcrc, if_neg (by simp [heq]), Nat.zero_add]
  · rw [hnew, if_neg (by simp), Nat.zero_add]

theorem crc_checksum_verified_witness :
    (WFNewEnc crcEx 5 dataEx ∧ S_ISREG crcEx.mode = true ∧ 5 ≠ checksum32 dataEx) ∧
    from_fileobj ⟨newRecordBytes (magicNew .newCrc) crcEx 5 dataEx ++ [], 0⟩ =
      .error (.checksumError crcEx.name) :=
  ⟨⟨by decide, by decide, by decide⟩,
   (crc_checksum_verified crcEx 5 dataEx [] (by decide) (by decide)).1 (by decide)⟩

theorem scanLoop_error {sd : List Byte} {sp : Nat} {err : PyErr}
    (acc : List CpioEntry) (h : from_fileobj ⟨sd, sp⟩ = .error err) :
    scanLoop ⟨sd, sp⟩ acc = .error err := by
  rw [scanLoop]
  split
  · rename_i e heq
    rw [h] at heq
    injection heq with h2
    rw [← h2]
  · rename_i ent s2 heq
    rw [h] at heq
    exact absurd heq (by simp)

theorem zero6_block_error :
    ∀ (sd rest : List Byte) (sp : Nat),
      sd.drop sp = List.replicate 6 0 ++ rest →
      from_fileobj ⟨sd, sp⟩ = .error .headerError := by
  intro sd rest sp hs
  have r6 := readS_exact hs (by decide : (List.replicate 6 0).length = 6)
  simp only [from_fileobj, r6.1]
  rw [if_neg (by decide), if_neg (by decide), if_neg (by decide),
      if_neg (by decide), if_neg (by decide)]

/-- C5 counterexample.  A zero-filled 512-byte block where a magic was
expected does not end the scan silently: from_fileobj raises HeaderError,
and opening such a stream for read fails instead of silently returning an
empty catalog. -/
theorem zero_block_raises_header_error :
    from_fileobj ⟨List.replicate 512 0, 0⟩ = .error .headerError ∧
    cpioOpenRead (List.replicate 512 0) none = .error .headerError := by
  have h6 : (List.replicate 512 (0 : Byte)).drop 0 =
      List.replicate 6 0 ++ List.replicate 506 0 := by
    rw [List.drop_zero, ← List.replicate_add]
  have hfo := zero6_block_error _ _ 0 h6
  refine ⟨hfo, ?_⟩
  unfold cpioOpenRead
  rw [scanLoop_error [] hfo]

/-- C5 amended.  A zero-filled block where a header magic was expected
raises HeaderError, exactly like any other unrecognized non-zero magic;
the code has no silent early end of archive. -/
theorem zero_block_is_header_error :
    ∀ (sd rest : List Byte) (sp : Nat),
      sd.drop sp = List.replicate 6 0 ++ rest →
      from_fileobj ⟨sd, sp⟩ = .error .headerError :=
  zero6_block_error

theorem zero_block_is_header_error_witness :
    ((List.replicate 6 0 : List Byte).drop 0 = List.replicate 6 0 ++ []) ∧
    from_fileobj ⟨List.replicate 6 0, 0⟩ = .error .headerError :=
  ⟨by simp, zero_block_is_header_error (List.replicate 6 0) [] 0 (by simp)⟩

/-- A well-formed CRC record of a regular file "f" with data "hi". -/
def recEx : Rec :=
  { ent := { dev := 0, ino := 7, mode := 33188, uid := 3, gid := 4, nlink := 1,
             mtime := 9, rdev := 0, size := 2, check := some 209, target := none,
             name := [102], filepos := none, position := 0 },
    fmt := .newCrc, chk := 209, data := [104, 105] }

/-- A directory record named "..". -/
def ddRec : Rec :=
  { ent := { dev := 0, ino := 8, mode := 16877, uid := 0, gid := 0, nlink := 2,
             mtime := 0, rdev := 0, size := 0, check := none, target := none,
             name := [46, 46], filepos := none, position := 0 },
    fmt := .newAscii, chk := 0, data := [] }

/-- A directory record named ".". -/
def dotRec : Rec :=
  { ent := { dev := 0, ino := 9, mode := 16877, uid := 0, gid := 0, nlink := 2,
             mtime := 0, rdev := 0, size := 0, check := none, target := none,
             name := [46], filepos := none, position := 0 },
    fmt := .newAscii, chk := 0, data := [] }

/-- C3 counterexample.  A stream truncated at a record boundary before its
trailer (here: the empty stream, and one full record with no trailer)
raises struct.error from the unpack of a short read, not HeaderError. -/
theorem truncated_raises_struct_error :
    cpioOpenRead [] none = .error .structError ∧
    cpioOpenRead (encodeAll [recEx]) none = .error .structError ∧
    PyErr.structError ≠ PyErr.headerError := by
  refine ⟨?_, ?_, by decide⟩
  · unfold cpioOpenRead
    rw [scanLoop_atEnd (show ([] : List Byte).drop 0 = [] from rfl)]
  · exact cpioOpenRead_trunc [recEx] (by decide) none

/-- C3 amended.  A stream of N well-formed non-trailer records, none named
".", followed by a well-formed trailer record yields exactly N members in
stream order and the trailer itself is never emitted; the same stream
truncated at the record boundary before the trailer raises an error, but
that error is struct.error (from unpacking the empty read at end of
stream), not HeaderError. -/
theorem trailer_termination :
    ∀ (rs : List Rec) (fmtArg : Option Format),
      (∀ r ∈ rs, RecWF r) → (∀ r ∈ rs, r.ent.name ≠ dotName) →
      (∃ members,
        cpioOpenRead (encodeAll rs ++ recBytes trailerRec) fmtArg = .ok members ∧
        members.length = rs.length ∧
        members.map (fun m => m.name) = rs.map (fun r => r.ent.name) ∧
        ∀ m ∈ members, m.name ≠ trailerName) ∧
      cpioOpenRead (encodeAll rs) fmtArg = .error .structError := by
  intro rs fmtArg hwf hdot
  have hfilter : rs.filter keepRec = rs := by
    rw [List.filter_eq_self]
    intro r hr
    simp [keepRec, hdot r hr]
  have hnames : (if fmtArg = some .newAscii ∨ fmtArg = some .newCrc then
      fix_hardlinks (decodedList rs 0) else decodedList rs 0).map (fun m => m.name) =
      rs.map (fun r => r.ent.name) := by
    by_cases hfmtc : fmtArg = some Format.newAscii ∨ fmtArg = some Format.newCrc
    · rw [if_pos hfmtc, fix_hardlinks_names, decodedList_map_name, hfilter]
    · rw [if_neg hfmtc, decodedList_map_name, hfilter]
  have hlen : (if fmtArg = some .newAscii ∨ fmtArg = some .newCrc then
      fix_hardlinks (decodedList rs 0) else decodedList rs 0).length = rs.length := by
    have h2 := congrArg List.length hnames
    simpa using h2
  refine ⟨⟨_, cpioOpenRead_ok rs hwf fmtArg, hlen, hnames, ?_⟩,
          cpioOpenRead_trunc rs hwf fmtArg⟩
  intro m hm
  have hmem : m.name ∈ rs.map (fun r => r.ent.name) := by
    rw [← hnames]
    exact List.mem_map_of_mem _ hm
  obtain ⟨r, hr, hre⟩ := List.mem_map.mp hmem
  rw [← hre]
  exact (hwf r hr).2.2.2

theorem trailer_termination_witness :
    ((∀ r ∈ [recEx], RecWF r) ∧ (∀ r ∈ [recEx], r.ent.name ≠ dotName)) ∧
    ((∃ members,
        cpioOpenRead (encodeAll [recEx] ++ recBytes trailerRec) none = .ok members ∧
        members.length = [recEx].length ∧
        members.map (fun m => m.name) = [recEx].map (fun r => r.ent.name) ∧
        ∀ m ∈ members, m.name ≠ trailerName) ∧
      cpioOpenRead (encodeAll [recEx]) none = .error .structError) :=
  ⟨⟨by decide, by decide⟩, trailer_termination [recEx] none (by decide) (by decide)⟩

/-- C6 counterexample.  An entry literally named ".." is not excluded from
the catalog: scanning one ".." directory record plus trailer yields that
member. -/
theorem dotdot_not_excluded :
    cpioOpenRead (encodeAll [ddRec] ++ recBytes trailerRec) none =
      .ok [decodedNew ddRec.ent ddRec.chk ddRec.data 0] ∧
    (decodedNew ddRec.ent ddRec.chk ddRec.data 0).name = dotdotName := by
  refine ⟨?_, by decide⟩
  rw [cpioOpenRead_ok [ddRec] (by decide) none, if_neg (by simp)]
  rfl

/-- C6 amended.  During a scan only entries literally named "." are
excluded from the catalog (".." is kept); the stream is still advanced
past an excluded entry, so all following records decode correctly. -/
theorem dot_exclusion :
    ∀ (rs : List Rec) (fmtArg : Option Format), (∀ r ∈ rs, RecWF r) →
      ∃ members,
        cpioOpenRead (encodeAll rs ++ recBytes trailerRec) fmtArg = .ok members ∧
        members.map (fun m => m.name) =
          (rs.filter keepRec).map (fun r => r.ent.name) := by
  intro rs fmtArg hwf
  refine ⟨_, cpioOpenRead_ok rs hwf fmtArg, ?_⟩
  by_cases hfmtc : fmtArg = some Format.newAscii ∨ fmtArg = some Format.newCrc
  · rw [if_pos hfmtc, fix_hardlinks_names, decodedList_map_name]
  · rw [if_neg hfmtc, decodedList_map_name]

theorem dot_exclusion_witness :
    (∀ r ∈ [dotRec, ddRec, recEx], RecWF r) ∧
    (∃ members,
        cpioOpenRead (encodeAll [dotRec, ddRec, recEx] ++ recBytes trailerRec)
          none = .ok members ∧
        members.map (fun m => m.name) =
          ([dotRec, ddRec, recEx].filter keepRec).map (fun r => r.ent.name)) :=
  ⟨by decide, dot_exclusion [dotRec, ddRec, recEx] none (by decide)⟩

/-- C4 counterexample.  The inner loop of _fix_hardlinks iterates over all
members for which hasdata is false, not only over placeholders: a
directory (which the placeholder partition excludes by definition) sharing
(dev, ino) with a data-carrying member is rewritten too — its size,
filepos and link count change. -/
theorem fix_rewrites_directory :
    fix_hardlinks [fileEx, dirEx] =
      [fileEx, { dirEx with filepos := some 100, size := 4, nlink := 1 }] ∧
    S_ISDIR dirEx.mode = true ∧ dirEx.nlink = 2 ∧ dirEx.size = 0 ∧
    ({ dirEx with filepos := some 100, size := 4, nlink := 1 } : CpioEntry) ≠
      dirEx := by
  decide

/-- C4 amended.  After _fix_hardlinks, members that carry data (link count
over 1, not a directory, positive size) are unchanged; every other member
— placeholder or not, directories included — that shares (dev, ino) with a
data-carrying member gets the filepos and size of the last such member and
link count 1; members with no data-carrying twin are unchanged (a
placeholder keeps size 0 without error).  The resolver runs after a read
scan exactly when the format argument of the constructor is one of the two
new magics. -/
theorem hardlink_resolver_amended :
    ∀ (ms : List CpioEntry),
      ((fix_hardlinks ms).length = ms.length ∧
       ∀ (i : Nat) (h : i < ms.length) (h2 : i < (fix_hardlinks ms).length),
         (fix_hardlinks ms).get ⟨i, h2⟩ =
           (if hasdata (ms.get ⟨i, h⟩) = true then ms.get ⟨i, h⟩
            else
              match lastMatch ms (ms.get ⟨i, h⟩) with
              | some k => rewriteFrom k (ms.get ⟨i, h⟩)
              | none => ms.get ⟨i, h⟩)) ∧
      ∀ (bytes : List Byte) (ms2 : List CpioEntry),
        scanLoop ⟨bytes, 0⟩ [] = .ok ms2 →
        cpioOpenRead bytes none = .ok ms2 ∧
        cpioOpenRead bytes (some .newAscii) = .ok (fix_hardlinks ms2) ∧
        cpioOpenRead bytes (some .newCrc) = .ok (fix_hardlinks ms2) ∧
        cpioOpenRead bytes (some .oldAscii) = .ok ms2 ∧
        cpioOpenRead bytes (some .oldBinary) = .ok ms2 := by
  intro ms
  refine ⟨⟨fix_hardlinks_length ms, fun i h h2 => fix_hardlinks_spec ms i h h2⟩, ?_⟩
  intro bytes ms2 hscan
  unfold cpioOpenRead
  rw [hscan]
  refine ⟨?_, ?_, ?_, ?_, ?_⟩ <;> simp

theorem hardlink_resolver_amended_witness :
    (1 < [fileEx, linkEx].length ∧ 1 < (fix_hardlinks [fileEx, linkEx]).length) ∧
    ((fix_hardlinks [fileEx, linkEx]).get ⟨1, by decide⟩ =
      (if hasdata ([fileEx, linkEx].get ⟨1, by decide⟩) = true then
         [fileEx, linkEx].get ⟨1, by decide⟩
       else
         match lastMatch [fileEx, linkEx] ([fileEx, linkEx].get ⟨1, by decide⟩) with
         | some k => rewriteFrom k ([fileEx, linkEx].get ⟨1, by decide⟩)
         | none => [fileEx, linkEx].get ⟨1, by decide⟩)) ∧
    (cpioOpenRead (recBytes trailerRec) none = .ok [] ∧
     cpioOpenRead (recBytes trailerRec) (some .newAscii) = .ok (fix_hardlinks []) ∧
     cpioOpenRead (recBytes trailerRec) (some .newCrc) = .ok (fix_hardlinks []) ∧
     cpioOpenRead (recBytes trailerRec) (some .oldAscii) = .ok [] ∧
     cpioOpenRead (recBytes trailerRec) (some .oldBinary) = .ok []) :=
  ⟨⟨by decide, by decide⟩,
   (hardlink_resolver_amended [fileEx, linkEx]).1.2 1 (by decide) (by decide),
   (hardlink_resolver_amended [fileEx, linkEx]).2 (recBytes trailerRec) []
     (scanLoop_trailer (show (recBytes trailerRec).drop 0 =
        recBytes trailerRec ++ [] by simp) [])⟩

instance (e : CpioEntry) (c : Nat) : Decidable (WFBounds e c) := by
  unfold WFBounds
  infer_instance

theorem octStr_length_le : ∀ k n : Nat, n < 8 ^ (k + 1) → (octStr n).length ≤ k + 1 := by
  intro k
  induction k with
  | zero =>
    intro n hn
    rw [octStr]
    split
    · simp
    · omega
  | succ k ih =>
    intro n hn
    rw [octStr]
    split
    · simp
    case isFalse h =>
      have hdiv : n / 8 < 8 ^ (k + 1) := by
        rw [Nat.div_lt_iff_lt_mul (by omega)]
        calc n < 8 ^ (k + 1 + 1) := hn
        _ = 8 ^ (k + 1) * 8 := by rw [pow_succ]
      have := ih (n / 8) hdiv
      simp only [List.length_append, List.length_cons, List.length_nil]
      omega

theorem oct6_length {n : Nat} (h : n < 262144) : (oct6 n).length = 6 := by
  have hle : (octStr n).length ≤ 6 := octStr_length_le 5 n (by norm_num; omega)
  unfold oct6 pad0
  simp only [List.length_append, List.length_replicate]
  omega

theorem oct11_length {n : Nat} (h : n < 8589934592) : (oct11 n).length = 11 := by
  have hle : (octStr n).length ≤ 11 := octStr_length_le 10 n (by norm_num; omega)
  unfold oct11 pad0
  simp only [List.length_append, List.length_replicate]
  omega

/-- C8.  For every emitted record the padding lengths follow the
(modulus - length mod modulus) mod modulus rule, so the emitted header
plus name region is a multiple of the header modulus (4 for the new
formats, 2 for old binary, none for old ASCII, whose data is also written
unpadded), the emitted data region is a multiple of the data modulus, and
the padding is empty when the length is already aligned; to_fileobj emits
exactly these two regions in sequence. -/
theorem padding_invariant :
    ∀ (e : CpioEntry) (c : Nat) (d : List Byte) (tell : Nat),
      WFBounds e c → e.size = d.length → e.check = some c →
      e.dev ≤ 65535 → e.ino ≤ 65535 → e.mode ≤ 65535 → e.uid ≤ 65535 →
      e.gid ≤ 65535 → e.nlink ≤ 65535 → e.rdev ≤ 65535 →
      e.mtime < 4294967296 → e.size < 4294967296 → e.name.length + 1 ≤ 65535 →
      (newHeaderName (magicNew .newAscii) e c).length % 4 = 0 ∧
      (newHeaderName (magicNew .newCrc) e c).length % 4 = 0 ∧
      (newDataRegion e d).length % 4 = 0 ∧
      ((111 + e.name.length) % 4 = 0 →
        (newHeaderName (magicNew .newCrc) e c).length = 111 + e.name.length) ∧
      (e.size % 4 = 0 → newDataRegion e d = d) ∧
      (oldHeaderName e).length = 77 + e.name.length ∧
      oldDataRegion d = d ∧
      (binHeaderName e).length % 2 = 0 ∧
      (binDataRegion e d).length % 2 = 0 ∧
      (∃ e2, to_fileobj e .newCrc d tell =
        .ok (newHeaderName (magicNew .newCrc) e c ++ newDataRegion e d, e2)) ∧
      (∃ e2, to_fileobj e .oldAscii d tell =
        .ok (oldHeaderName e ++ oldDataRegion d, e2)) ∧
      (∃ e2, to_fileobj e .oldBinary d tell =
        .ok (binHeaderName e ++ binDataRegion e d, e2)) := by
  intro e c d tell hb hsz hck hdev hino hmode huid hgid hnlink hrdev hmtime
    hsize hnm
  have hM6a : (magicNew Format.newAscii).length = 6 := by decide
  have hM6c : (magicNew Format.newCrc).length = 6 := by decide
  have hha := newHeaderName_length hM6a hb
  have hhc := newHeaderName_length hM6c hb
  have hDR : (newDataRegion e d).length = e.size + dpadNew e.size := by
    unfold newDataRegion
    by_cases hd0 : d = []
    · rw [if_pos hd0]
      have h0 : e.size = 0 := by rw [hsz, hd0]; rfl
      rw [h0]
      decide
    · rw [if_neg hd0]
      simp only [List.length_append, List.length_replicate, hsz]
  have hBD : (binDataRegion e d).length = e.size + binDpad e.size := by
    unfold binDataRegion
    by_cases hd0 : d = []
    · rw [if_pos hd0]
      have h0 : e.size = 0 := by rw [hsz, hd0]; rfl
      rw [h0]
      decide
    · rw [if_neg hd0]
      simp only [List.length_append, List.length_replicate, hsz]
  refine ⟨?_, ?_, ?_, ?_, ?_, ?_, ?_, ?_, ?_, ?_, ?_, ?_⟩
  · rw [hha]
    unfold hpadNew
    omega
  · rw [hhc]
    unfold hpadNew
    omega
  · rw [hDR]
    unfold dpadNew
    omega
  · intro hal
    rw [hhc]
    unfold hpadNew
    omega
  · intro hal
    unfold newDataRegion
    by_cases hd0 : d = []
    · rw [if_pos hd0, hd0]
    · rw [if_neg hd0]
      have : dpadNew e.size = 0 := by
        unfold dpadNew
        omega
      rw [this]
      simp
  · unfold oldHeaderName
    simp only [List.length_append, oct6_length (by omega : e.dev < 262144),
      oct6_length (by omega : e.ino < 262144),
      oct6_length (by omega : e.mode < 262144),
      oct6_length (by omega : e.uid < 262144),
      oct6_length (by omega : e.gid < 262144),
      oct6_length (by omega : e.nlink < 262144),
      oct6_length (by omega : e.rdev < 262144),
      oct6_length (by omega : e.name.length + 1 < 262144),
      oct11_length (by omega : e.mtime < 8589934592),
      oct11_length (by omega : e.size < 8589934592),
      List.length_cons, List.length_nil]
    have : OLD_MAGIC.length = 6 := by decide
    rw [this]
    omega
  · unfold oldDataRegion
    by_cases hd0 : d = []
    · rw [if_pos hd0, hd0]
    · rw [if_neg hd0]
      simp
  · unfold binHeaderName binHpad
    simp only [List.length_append, List.length_replicate, List.length_cons,
      List.length_nil, packH, BIN_MAGIC]
    omega
  · rw [hBD]
    unfold binDpad
    omega
  · exact ⟨_, to_fileobj_new (Or.inr rfl) hck⟩
  · by_cases hd0 : d = []
    · refine ⟨e, ?_⟩
      unfold to_fileobj oldDataRegion
      rw [if_pos hd0]
      simp [hd0]
    · refine ⟨{ e with filepos := some (tell + (oldHeaderName e).length) }, ?_⟩
      unfold to_fileobj oldDataRegion
      rw [if_neg hd0]
      simp [hd0]
  · have hguard : ¬ (e.dev > 65535 ∨ e.ino > 65535 ∨ e.mode > 65535 ∨
        e.uid > 65535 ∨ e.gid > 65535 ∨ e.nlink > 65535 ∨ e.rdev > 65535 ∨
        e.mtime / 65536 > 65535 ∨ e.name.length + 1 > 65535 ∨
        e.size / 65536 > 65535) := by
      omega
    by_cases hd0 : d = []
    · refine ⟨e, ?_⟩
      unfold to_fileobj binDataRegion
      rw [if_neg hguard]
      simp [hd0]
    · refine ⟨{ e with filepos := some (tell + (binHeaderName e).length) }, ?_⟩
      unfold to_fileobj binDataRegion
      rw [if_neg hguard]
      simp [hd0]

theorem padding_invariant_witness :
    (WFBounds crcEx 5 ∧ crcEx.size = dataEx.length ∧ crcEx.check = some 5 ∧
     crcEx.dev ≤ 65535 ∧ crcEx.ino ≤ 65535 ∧ crcEx.mode ≤ 65535 ∧
     crcEx.uid ≤ 65535 ∧ crcEx.gid ≤ 65535 ∧ crcEx.nlink ≤ 65535 ∧
     crcEx.rdev ≤ 65535 ∧ crcEx.mtime < 4294967296 ∧ crcEx.size < 4294967296 ∧
     crcEx.name.length + 1 ≤ 65535) ∧
    ((newHeaderName (magicNew .newAscii) crcEx 5).length % 4 = 0 ∧
      (newHeaderName (magicNew .newCrc) crcEx 5).length % 4 = 0 ∧
      (newDataRegion crcEx dataEx).length % 4 = 0 ∧
      ((111 + crcEx.name.length) % 4 = 0 →
        (newHeaderName (magicNew .newCrc) crcEx 5).length = 111 + crcEx.name.length) ∧
      (crcEx.size % 4 = 0 → newDataRegion crcEx dataEx = dataEx) ∧
      (oldHeaderName crcEx).length = 77 + crcEx.name.length ∧
      oldDataRegion dataEx = dataEx ∧
      (binHeaderName crcEx).length % 2 = 0 ∧
      (binDataRegion crcEx dataEx).length % 2 = 0 ∧
      (∃ e2, to_fileobj crcEx .newCrc dataEx 0 =
        .ok (newHeaderName (magicNew .newCrc) crcEx 5 ++ newDataRegion crcEx dataEx, e2)) ∧
      (∃ e2, to_fileobj crcEx .oldAscii dataEx 0 =
        .ok (oldHeaderName crcEx ++ oldDataRegion dataEx, e2)) ∧
      (∃ e2, to_fileobj crcEx .oldBinary dataEx 0 =
        .ok (binHeaderName crcEx ++ binDataRegion crcEx dataEx, e2))) := by
  constructor
  · refine ⟨?_, ?_, ?_, ?_, ?_, ?_, ?_, ?_, ?_, ?_, ?_, ?_, ?_⟩ <;> decide
  · exact padding_invariant crcEx 5 dataEx 0 (by decide) (by decide) (by decide)
      (by decide) (by decide) (by decide) (by decide) (by decide) (by decide)
      (by decide) (by decide) (by decide) (by decide)

end Cpio
